import Mathlib

/-!
Verification development for the `jcalc` repository (a JDWP-based remote
calculator).  The parser in `src/jcalc/src/parse.rs` is embedded as fuel-indexed
functions on `List Char`; the send/receive machinery of
`src/jcalc/src/main.rs` is embedded as explicit state passing over a queue of
decoded packets.  Machine integers (`i64`) are modelled as `Int` with the
explicit bound `i64MaxNat`; fallible Rust code returning `Result` is modelled
with explicit result types, and `panic!`/`expect` sites are modelled as a
distinguished `panicked` outcome.
-/

namespace Jcalc

/-- `Operator` from parse.rs. -/
inductive Operator where
  | Add
  | Subtract
  | Multiply
  | Divide
deriving DecidableEq, Repr

/-- `Expression` from parse.rs: a postfix instruction, either a literal
(i64, modelled as `Int`) or a binary operator. -/
inductive Expression where
  | Number (n : Int)
  | Binary (op : Operator)
deriving DecidableEq, Repr

/-- The parse errors produced in parse.rs, as structured values.  The Rust code
returns `Err(String)`; the constructors correspond to the format strings:
`trailingInput r` to `"Unexpected input remaining: '{r}'"` (parse_input, line 20),
`expectedCloseParen` to `"Expected ')'"` (parse_primary, line 90),
`expectedNumber s` to `"Expected number at '{s}'"` (parse_primary, line 104), and
`invalidNumber` to `"Invalid number"` (parse_primary, line 108, raised when
`num_str.parse::<i64>()` overflows). -/
inductive ParseErr where
  | trailingInput (remain : List Char)
  | expectedCloseParen
  | expectedNumber (at_pos : List Char)
  | invalidNumber
deriving DecidableEq, Repr

/-- Result of a fuel-indexed parsing function: success, error, or out of fuel.
The `ofl` constructor is an artifact of the shallow embedding (the Rust
functions are totalised with a fuel parameter); `parse_input` is supplied
enough fuel that `ofl` is unreachable (`parse_input_ne_ofl`). -/
inductive PResult (ε α : Type) where
  | ok (a : α)
  | err (e : ε)
  | ofl
deriving DecidableEq, Repr

/-- Value of a run of ASCII digits, most significant first (the value computed
by `num_str.parse::<i64>()` on a digit-only string). -/
def digitsToNat (ds : List Char) : Nat :=
  ds.foldl (fun acc c => 10 * acc + (c.toNat - 48)) 0

/-- `i64::MAX`: a digit run parses as `i64` exactly when its value is at most
this bound (the run is sign-free, so negative overflow cannot occur). -/
def i64MaxNat : Nat := 9223372036854775807

/-- The number branch of `parse_primary` (parse.rs lines 93-110): take the
maximal leading run of ASCII digits from `s` (the Rust loop counts bytes of
consecutive `is_ascii_digit` chars, which for ASCII digits is exactly
`takeWhile`), fail with `expectedNumber` if it is empty, parse it as `i64`
(failing with `invalidNumber` on overflow), and emit one `Number` instruction. -/
def parseNumberFrom (s : List Char) : PResult ParseErr (List Expression × List Char) :=
  let num_str := s.takeWhile Char.isDigit
  let rest := s.dropWhile Char.isDigit
  if num_str = [] then .err (.expectedNumber s)
  else if digitsToNat num_str ≤ i64MaxNat then
    .ok ([.Number ((digitsToNat num_str : Nat) : Int)], rest)
  else .err .invalidNumber

mutual

/-- `parse_add_sub` (parse.rs lines 30-53).  The Rust function pushes onto a
shared `Vec`; here the newly pushed instructions are returned as a list.
The first argument is fuel, decremented at every call. -/
def parse_add_sub : Nat → List Char → PResult ParseErr (List Expression × List Char)
  | 0, _ => .ofl
  | f + 1, input =>
    match parse_mul_div f input with
    | .ok (es, rest) => parse_add_sub_aux f es rest
    | .err e => .err e
    | .ofl => .ofl

/-- The `loop` inside `parse_add_sub` (parse.rs lines 36-50): while the
remaining input starts (after `trim_start`) with `+` or `-`, consume the
operator, parse the next `* /`-level term, and append its instructions
followed by the `Binary` instruction. -/
def parse_add_sub_aux : Nat → List Expression → List Char → PResult ParseErr (List Expression × List Char)
  | 0, _, _ => .ofl
  | f + 1, es, rest =>
    match rest.dropWhile Char.isWhitespace with
    | [] => .ok (es, rest)
    | c :: next =>
      if c = '+' then
        match parse_mul_div f next with
        | .ok (es2, rest2) => parse_add_sub_aux f (es ++ es2 ++ [.Binary .Add]) rest2
        | .err e => .err e
        | .ofl => .ofl
      else if c = '-' then
        match parse_mul_div f next with
        | .ok (es2, rest2) => parse_add_sub_aux f (es ++ es2 ++ [.Binary .Subtract]) rest2
        | .err e => .err e
        | .ofl => .ofl
      else .ok (es, rest)

/-- `parse_mul_div` (parse.rs lines 56-79). -/
def parse_mul_div : Nat → List Char → PResult ParseErr (List Expression × List Char)
  | 0, _ => .ofl
  | f + 1, input =>
    match parse_primary f input with
    | .ok (es, rest) => parse_mul_div_aux f es rest
    | .err e => .err e
    | .ofl => .ofl

/-- The `loop` inside `parse_mul_div` (parse.rs lines 62-76). -/
def parse_mul_div_aux : Nat → List Expression → List Char → PResult ParseErr (List Expression × List Char)
  | 0, _, _ => .ofl
  | f + 1, es, rest =>
    match rest.dropWhile Char.isWhitespace with
    | [] => .ok (es, rest)
    | c :: next =>
      if c = '*' then
        match parse_primary f next with
        | .ok (es2, rest2) => parse_mul_div_aux f (es ++ es2 ++ [.Binary .Multiply]) rest2
        | .err e => .err e
        | .ofl => .ofl
      else if c = '/' then
        match parse_primary f next with
        | .ok (es2, rest2) => parse_mul_div_aux f (es ++ es2 ++ [.Binary .Divide]) rest2
        | .err e => .err e
        | .ofl => .ofl
      else .ok (es, rest)

/-- `parse_primary` (parse.rs lines 82-112): trim leading whitespace; on `(`
recurse into `parse_expression` (= `parse_add_sub`) and require a matching
`)`; otherwise parse a number.  Rust's `trim_start`/`char::is_whitespace` is
modelled by `Char.isWhitespace` (the inputs of interest are ASCII). -/
def parse_primary : Nat → List Char → PResult ParseErr (List Expression × List Char)
  | 0, _ => .ofl
  | f + 1, input =>
    match input.dropWhile Char.isWhitespace with
    | [] => parseNumberFrom []
    | c :: after_paren =>
      if c = '(' then
        match parse_add_sub f after_paren with
        | .ok (es, rest) =>
          match rest.dropWhile Char.isWhitespace with
          | [] => .err .expectedCloseParen
          | c2 :: remaining =>
            if c2 = ')' then .ok (es, remaining) else .err .expectedCloseParen
        | .err e => .err e
        | .ofl => .ofl
      else parseNumberFrom (c :: after_paren)

end

/-- `parse_expression` (parse.rs lines 25-27) simply delegates to
`parse_add_sub`. -/
def parse_expression (f : Nat) (input : List Char) : PResult ParseErr (List Expression × List Char) :=
  parse_add_sub f input

/-- Rust's `str::trim` (both ends), restricted to the whitespace predicate of
the embedding. -/
def rustTrim (s : List Char) : List Char :=
  ((s.dropWhile Char.isWhitespace).reverse.dropWhile Char.isWhitespace).reverse

/-- Fuel supplied to the parser by `parse_input`.  It is proved sufficient:
every mutual call decreases the fuel by one and at least one character is
consumed for every three levels of calls. -/
def parseFuel (s : List Char) : Nat := 3 * s.length + 3

/-- `parse_input` (parse.rs lines 15-23): parse an expression, then require the
remainder to be whitespace only (`remain.trim().is_empty()`), else fail with
the trailing-input error. -/
def parse_input (input : List Char) : PResult ParseErr (List Expression) :=
  match parse_add_sub (parseFuel input) input with
  | .ok (exprs, remain) =>
    if rustTrim remain = [] then .ok exprs else .err (.trailingInput remain)
  | .err e => .err e
  | .ofl => .ofl

/-! ### Token-level view of the input

The parser's control flow depends on the input only through its token
sequence: maximal digit runs, and single non-whitespace symbol characters.
`tokenize` computes that sequence; the token-level parser below mirrors the
character-level one step for step and is related to it by `classOf`-projection
of the errors (error payloads record raw input slices, so only the error class
is preserved). -/

/-- A lexical token of the expression language: a maximal run of ASCII digits,
or a single non-whitespace, non-digit symbol character. -/
inductive Tok where
  | num (ds : List Char)
  | sym (c : Char)
deriving DecidableEq, Repr

/-- Fuel-indexed tokenizer: skip whitespace; a digit starts a maximal digit
run; any other character is a one-character symbol token.  Each step consumes
at least one character, so fuel `length + 1` always suffices
(`tokenizeF_fuel_indep`). -/
def tokenizeF : Nat → List Char → List Tok
  | 0, _ => []
  | f + 1, s =>
    match s.dropWhile Char.isWhitespace with
    | [] => []
    | c :: cs =>
      if c.isDigit then
        Tok.num ((c :: cs).takeWhile Char.isDigit) :: tokenizeF f ((c :: cs).dropWhile Char.isDigit)
      else
        Tok.sym c :: tokenizeF f cs

/-- Token sequence of an input string. -/
def tokenize (s : List Char) : List Tok := tokenizeF (s.length + 1) s

/-- The error classes of the parser (the payload-free shadow of `ParseErr`). -/
inductive ErrClass where
  | trailingInput
  | expectedCloseParen
  | expectedNumber
  | invalidNumber
deriving DecidableEq, Repr

/-- Class of a parse error (drops the recorded input slices). -/
def classOf : ParseErr → ErrClass
  | .trailingInput _ => .trailingInput
  | .expectedCloseParen => .expectedCloseParen
  | .expectedNumber _ => .expectedNumber
  | .invalidNumber => .invalidNumber

mutual

/-- Token-level counterpart of `parse_add_sub` (same fuel discipline). -/
def tok_add_sub : Nat → List Tok → PResult ErrClass (List Expression × List Tok)
  | 0, _ => .ofl
  | f + 1, ts =>
    match tok_mul_div f ts with
    | .ok (es, ts1) => tok_add_sub_aux f es ts1
    | .err e => .err e
    | .ofl => .ofl

/-- Token-level counterpart of `parse_add_sub_aux`. -/
def tok_add_sub_aux : Nat → List Expression → List Tok → PResult ErrClass (List Expression × List Tok)
  | 0, _, _ => .ofl
  | f + 1, es, ts =>
    match ts with
    | .sym c :: ts1 =>
      if c = '+' then
        match tok_mul_div f ts1 with
        | .ok (es2, ts2) => tok_add_sub_aux f (es ++ es2 ++ [.Binary .Add]) ts2
        | .err e => .err e
        | .ofl => .ofl
      else if c = '-' then
        match tok_mul_div f ts1 with
        | .ok (es2, ts2) => tok_add_sub_aux f (es ++ es2 ++ [.Binary .Subtract]) ts2
        | .err e => .err e
        | .ofl => .ofl
      else .ok (es, ts)
    | _ => .ok (es, ts)

/-- Token-level counterpart of `parse_mul_div`. -/
def tok_mul_div : Nat → List Tok → PResult ErrClass (List Expression × List Tok)
  | 0, _ => .ofl
  | f + 1, ts =>
    match tok_primary f ts with
    | .ok (es, ts1) => tok_mul_div_aux f es ts1
    | .err e => .err e
    | .ofl => .ofl

/-- Token-level counterpart of `parse_mul_div_aux`. -/
def tok_mul_div_aux : Nat → List Expression → List Tok → PResult ErrClass (List Expression × List Tok)
  | 0, _, _ => .ofl
  | f + 1, es, ts =>
    match ts with
    | .sym c :: ts1 =>
      if c = '*' then
        match tok_primary f ts1 with
        | .ok (es2, ts2) => tok_mul_div_aux f (es ++ es2 ++ [.Binary .Multiply]) ts2
        | .err e => .err e
        | .ofl => .ofl
      else if c = '/' then
        match tok_primary f ts1 with
        | .ok (es2, ts2) => tok_mul_div_aux f (es ++ es2 ++ [.Binary .Divide]) ts2
        | .err e => .err e
        | .ofl => .ofl
      else .ok (es, ts)
    | _ => .ok (es, ts)

/-- Token-level counterpart of `parse_primary`. -/
def tok_primary : Nat → List Tok → PResult ErrClass (List Expression × List Tok)
  | 0, _ => .ofl
  | f + 1, ts =>
    match ts with
    | .sym c :: ts1 =>
      if c = '(' then
        match tok_add_sub f ts1 with
        | .ok (es, ts2) =>
          match ts2 with
          | .sym c2 :: ts3 =>
            if c2 = ')' then .ok (es, ts3) else .err .expectedCloseParen
          | _ => .err .expectedCloseParen
        | .err e => .err e
        | .ofl => .ofl
      else .err .expectedNumber
    | .num ds :: ts1 =>
      if digitsToNat ds ≤ i64MaxNat then .ok ([.Number ((digitsToNat ds : Nat) : Int)], ts1)
      else .err .invalidNumber
    | [] => .err .expectedNumber

end

/-- Token-level counterpart of `parse_input`. -/
def tok_parse (f : Nat) (ts : List Tok) : PResult ErrClass (List Expression) :=
  match tok_add_sub f ts with
  | .ok (es, ts1) => if ts1 = [] then .ok es else .err .trailingInput
  | .err e => .err e
  | .ofl => .ofl

/-- Project a character-level parsing result to the token level: the remaining
input is tokenized and error payloads are dropped. -/
def liftInner : PResult ParseErr (List Expression × List Char) → PResult ErrClass (List Expression × List Tok)
  | .ok (es, r) => .ok (es, tokenize r)
  | .err e => .err (classOf e)
  | .ofl => .ofl

/-- Project a `parse_input` result to error classes. -/
def liftTop : PResult ParseErr (List Expression) → PResult ErrClass (List Expression)
  | .ok es => .ok es
  | .err e => .err (classOf e)
  | .ofl => .ofl

/-! ### The specification grammar

`spec.md` section 4.6 gives the grammar
`expr := term (('+'|'-') term)*`; `term := primary (('*'|'/') primary)*`;
`primary := INTEGER | '(' expr ')'`, with standard precedence and left
associativity, evaluated as ordinary infix arithmetic.  The abstract syntax
tree and the recursive-descent functions below are written from those words
(they accept unbounded integers, as the grammar does) and serve as the
specification side of the refinement claims. -/

/-- Abstract syntax tree of the specification grammar. -/
inductive AExp where
  | num (n : Int)
  | bin (op : Operator) (l r : AExp)
deriving DecidableEq, Repr

/-- Integer semantics of an operator; division is truncated toward zero
(`Int.div`), matching Java's `BigInteger.divide` used by the evaluator. -/
def applyOp : Operator → Int → Int → Int
  | .Add, a, b => a + b
  | .Subtract, a, b => a - b
  | .Multiply, a, b => a * b
  | .Divide, a, b => Int.tdiv a b

/-- Direct infix evaluation of an abstract syntax tree. -/
def evalA : AExp → Int
  | .num n => n
  | .bin op a b => applyOp op (evalA a) (evalA b)

/-- Postfix rendering of an abstract syntax tree: operands first, operator
last (the instruction order the spec requires of the parser's output). -/
def compile : AExp → List Expression
  | .num n => [.Number n]
  | .bin op a b => compile a ++ compile b ++ [.Binary op]

/-- All literals of the tree fit in `i64` (the amended side condition of the
parser correctness claim). -/
def litsFit : AExp → Bool
  | .num n => decide (0 ≤ n) && decide (n ≤ (i64MaxNat : Int))
  | .bin _ a b => litsFit a && litsFit b

mutual

/-- Specification parser, `expr` production (`term (('+'|'-') term)*`),
left-associative, over tokens; same fuel discipline as the implementation. -/
def ast_add_sub : Nat → List Tok → Option (AExp × List Tok)
  | 0, _ => none
  | f + 1, ts =>
    match ast_mul_div f ts with
    | some (a, ts1) => ast_add_sub_aux f a ts1
    | none => none

/-- Iteration of the `expr` production's `(('+'|'-') term)*` part. -/
def ast_add_sub_aux : Nat → AExp → List Tok → Option (AExp × List Tok)
  | 0, _, _ => none
  | f + 1, acc, ts =>
    match ts with
    | .sym c :: ts1 =>
      if c = '+' then
        match ast_mul_div f ts1 with
        | some (b, ts2) => ast_add_sub_aux f (.bin .Add acc b) ts2
        | none => none
      else if c = '-' then
        match ast_mul_div f ts1 with
        | some (b, ts2) => ast_add_sub_aux f (.bin .Subtract acc b) ts2
        | none => none
      else some (acc, ts)
    | _ => some (acc, ts)

/-- Specification parser, `term` production (`primary (('*'|'/') primary)*`). -/
def ast_mul_div : Nat → List Tok → Option (AExp × List Tok)
  | 0, _ => none
  | f + 1, ts =>
    match ast_primary f ts with
    | some (a, ts1) => ast_mul_div_aux f a ts1
    | none => none

/-- Iteration of the `term` production's `(('*'|'/') primary)*` part. -/
def ast_mul_div_aux : Nat → AExp → List Tok → Option (AExp × List Tok)
  | 0, _, _ => none
  | f + 1, acc, ts =>
    match ts with
    | .sym c :: ts1 =>
      if c = '*' then
        match ast_primary f ts1 with
        | some (b, ts2) => ast_mul_div_aux f (.bin .Multiply acc b) ts2
        | none => none
      else if c = '/' then
        match ast_primary f ts1 with
        | some (b, ts2) => ast_mul_div_aux f (.bin .Divide acc b) ts2
        | none => none
      else some (acc, ts)
    | _ => some (acc, ts)

/-- Specification parser, `primary` production (`INTEGER | '(' expr ')'`).
`INTEGER` is a (non-empty, by construction of `tokenize`) run of ASCII digits
with no bound on its value. -/
def ast_primary : Nat → List Tok → Option (AExp × List Tok)
  | 0, _ => none
  | f + 1, ts =>
    match ts with
    | .sym c :: ts1 =>
      if c = '(' then
        match ast_add_sub f ts1 with
        | some (a, ts2) =>
          match ts2 with
          | .sym c2 :: ts3 => if c2 = ')' then some (a, ts3) else none
          | _ => none
        | none => none
      else none
    | .num ds :: ts1 => some (.num ((digitsToNat ds : Nat) : Int), ts1)
    | [] => none

end

/-- A string is a valid arithmetic expression exactly when the specification
grammar derives it with nothing left over: `ast_parse s = some a` for the
abstract syntax tree `a` of the expression. -/
def ast_parse (s : List Char) : Option AExp :=
  match ast_add_sub (parseFuel s) (tokenize s) with
  | some (a, ts) => if ts = [] then some a else none
  | none => none

/-! ### Reference big-integer stack machine

The evaluator in `SendHandler::calc_expression` executes the postfix program
on a stack; the reference machine below executes it on actual arbitrary
precision integers (`Int`), which is the arithmetic the remote
`java.math.BigInteger` performs. -/

/-- Reference arbitrary-precision stack machine: `Number` pushes, `Binary`
pops the right operand `b` then the left operand `a` and pushes `applyOp op a
b`; popping with fewer than two entries is a failure (`none`). -/
def stackRun : List Expression → List Int → Option (List Int)
  | [], σ => some σ
  | .Number n :: rest, σ => stackRun rest (n :: σ)
  | .Binary op :: rest, σ =>
    match σ with
    | b :: a :: σ' => stackRun rest (applyOp op a b :: σ')
    | _ => none

/-- Stack-depth shadow of the machine: `none` exactly when a `Binary`
instruction meets a stack of fewer than two entries. -/
def depthRun : List Expression → Nat → Option Nat
  | [], d => some d
  | .Number _ :: rest, d => depthRun rest (d + 1)
  | .Binary _ :: rest, d =>
    match d with
    | k + 2 => depthRun rest (k + 1)
    | _ => none

/-! ### Session model (`SendHandler`, main.rs)

The send side of the correlation engine is embedded as explicit state passing:
a `SendHandlerState` carries the command-envelope history (`payloads`), the
command-id counter (`cmd_id`) and the FIFO queue of decoded inbound packets
the receive task has forwarded (`channel_rx`).  Remote handles are opaque
`Nat` identifiers.  Rust `panic!`/`expect`/let-`else`-`panic` sites are
modelled as the `panicked` outcome, distinct from `Result::Err` (`err`). -/

/-- A JDWP value (`ore_jdwp::packets::JDWPValue`), restricted to the variants
the program constructs or inspects; handles are opaque identifiers. -/
inductive JVal where
  | object (id : Nat)
  | classObject (id : Nat)
  | array (id : Nat)
  | string (id : Nat)
  | long (n : Int)
  | otherVal
deriving DecidableEq, Repr

/-- One entry of a classes-by-signature reply (`type_id` is the reference-type
handle used by `find_class`). -/
structure ClassEntry where
  type_id : Nat
deriving DecidableEq, Repr

/-- One declared method of a reference type, as listed in a
`ReferenceType.Methods` reply (`name.data` / `signature.data` in the code). -/
structure MethodEntry where
  method_id : Nat
  name : String
  signature : String
deriving DecidableEq, Repr

/-- One declared field of a reference type, as listed in a
`ReferenceType.Fields` reply. -/
structure FieldEntry where
  field_id : Nat
  name : String
  signature : String
deriving DecidableEq, Repr

/-- Kind of one event inside an `EventComposite` packet; the code only
discriminates `VMDEATH` and `CLASSPREPARE`. -/
inductive EventKind where
  | vmDeath
  | classPrepare
  | otherEvent
deriving DecidableEq, Repr

/-- Outbound command payload (`JDWPPacketDataFromDebugger`), restricted to the
variants this program issues. -/
inductive DebuggerPacket where
  | virtualMachineIDSizes
  | eventRequestSet (event_kind : Nat) (suspend_policy : Nat) (source_name_pattern : String)
  | virtualMachineResume
  | virtualMachineAllThreads
  | virtualMachineClassesBySignature (signature : String)
  | referenceTypeMethods (ref_type : Nat)
  | referenceTypeFields (ref_type : Nat)
  | referenceTypeGetValues (ref_type : Nat) (fields : List Nat)
  | virtualMachineCreateString (utf : String)
  | classTypeInvokeMethod (clazz : Nat) (thread : Nat) (method_id : Nat) (arguments : List JVal)
  | objectReferenceInvokeMethod (object : Nat) (clazz : Nat) (thread : Nat) (method_id : Nat)
      (arguments : List JVal)
  | arrayTypeNewInstance (arr_type : Nat) (len : Nat)
  | arrayReferenceSetValues (array_object : Nat) (first_index : Nat) (values : List JVal)
  | stringReferenceValue (string_object : Nat)
deriving DecidableEq, Repr

/-- Inbound decoded packet (`JDWPPacketDataFromDebuggee`), restricted to the
variants this program inspects.  `eventComposite` is the asynchronous event
notification; every other constructor is a command reply. -/
inductive DebuggeePacket where
  | eventComposite (events : List EventKind)
  | virtualMachineIDSizes
  | virtualMachineAllThreads (threads : List Nat)
  | virtualMachineClassesBySignature (classes : List ClassEntry)
  | referenceTypeMethods (declared : List MethodEntry)
  | referenceTypeFields (declared : List FieldEntry)
  | referenceTypeGetValues (values : List JVal)
  | virtualMachineCreateString (string_object : Nat)
  | classTypeInvokeMethod (return_value : JVal) (exception : Nat)
  | objectReferenceInvokeMethod (return_value : JVal) (exception : Nat)
  | arrayTypeNewInstance (new_array : Nat)
  | arrayReferenceSetValues
  | stringReferenceValue (string_value : String)
  | otherReply
deriving DecidableEq, Repr

/-- Is this packet an asynchronous event notification? -/
def isEventPacket : DebuggeePacket → Bool
  | .eventComposite _ => true
  | _ => false

/-- Does this event signal target (VM) termination? -/
def isVmDeath : EventKind → Bool
  | .vmDeath => true
  | _ => false

/-- Failure of a send-side operation: `err` models `Result::Err(String)`
(recoverable, surfaced to the caller); `panicked` models `panic!`/`expect`
(process-fatal, never surfaced as a value in the Rust program). -/
inductive SendErr where
  | err (msg : String)
  | panicked (msg : String)
deriving DecidableEq, Repr

/-- The mutable state of `SendHandler` (main.rs lines 639-645) together with
the contents of the packet channel it consumes. -/
structure SendHandlerState where
  payloads : List DebuggerPacket
  cmd_id : Nat
  queue : List DebuggeePacket
deriving DecidableEq, Repr

/-- The receive loop of `send_and_receive` (main.rs lines 664-684): consume
packets from the channel; an `EventComposite` containing a `VMDEATH` event
fails the pending command with the `"VM DEATH"` error, any other
`EventComposite` is discarded and the wait continues, and the first
non-event packet is the reply.  Returns the result paired with the queue
contents left unconsumed. -/
def awaitReply : List DebuggeePacket → Except SendErr DebuggeePacket × List DebuggeePacket
  | [] => (.error (.err "Channel closed"), [])
  | .eventComposite evs :: rest =>
    if evs.any isVmDeath then (.error (.err "VM DEATH"), rest)
    else awaitReply rest
  | p :: rest => (.ok p, rest)

/-- `SendHandler::send_and_receive` (main.rs lines 648-685): push the payload
onto the envelope history, send it (the wire write itself has no effect on
the modelled state), increment the command id, then wait for the reply with
`awaitReply`. -/
def send_and_receive (st : SendHandlerState) (payload : DebuggerPacket) :
    Except SendErr DebuggeePacket × SendHandlerState :=
  let st1 : SendHandlerState :=
    { payloads := st.payloads ++ [payload], cmd_id := st.cmd_id + 1, queue := st.queue }
  match awaitReply st1.queue with
  | (r, q) => (r, { st1 with queue := q })

/-- `SendHandler::find_class` (main.rs lines 717-733): issue a
classes-by-signature command; a reply of the wrong variant is a let-else
`panic!`; an empty result set panics via `.first().expect("No class found")`;
otherwise the first match's `type_id` is returned. -/
def find_class (st : SendHandlerState) (signature : String) :
    Except SendErr Nat × SendHandlerState :=
  match send_and_receive st (.virtualMachineClassesBySignature signature) with
  | (.ok (.virtualMachineClassesBySignature classes), st') =>
    match classes with
    | [] => (.error (.panicked "No class found"), st')
    | c :: _ => (.ok c.type_id, st')
  | (.ok _, st') => (.error (.panicked "Failed to find class"), st')
  | (.error e, st') => (.error e, st')

/-- The matching loop of `find_method` (main.rs lines 753-757): first declared
method whose name and signature both equal the requested ones. -/
def find_method_in (methods : List MethodEntry) (method_name signature : String) : Option Nat :=
  match methods with
  | [] => none
  | m :: rest =>
    if m.name = method_name ∧ m.signature = signature then some m.method_id
    else find_method_in rest method_name signature

/-- `SendHandler::find_method` (main.rs lines 735-759): list declared methods
of the class, then return the first exact (name, signature) match, or the
`"Method {name} not found"` error. -/
def find_method (st : SendHandlerState) (class_id : Nat) (method_name signature : String) :
    Except SendErr Nat × SendHandlerState :=
  match send_and_receive st (.referenceTypeMethods class_id) with
  | (.ok (.referenceTypeMethods methods), st') =>
    match find_method_in methods method_name signature with
    | some h => (.ok h, st')
    | none => (.error (.err ("Method " ++ method_name ++ " not found")), st')
  | (.ok _, st') => (.error (.panicked "Failed to get methods"), st')
  | (.error e, st') => (.error e, st')

/-- The matching loop of `find_field` (main.rs lines 779-783). -/
def find_field_in (fields : List FieldEntry) (field_name signature : String) : Option Nat :=
  match fields with
  | [] => none
  | fe :: rest =>
    if fe.name = field_name ∧ fe.signature = signature then some fe.field_id
    else find_field_in rest field_name signature

/-- `SendHandler::find_field` (main.rs lines 761-785): list declared fields of
the class, then return the first exact (name, signature) match, or the
`"Field {name} not found"` error. -/
def find_field (st : SendHandlerState) (class_id : Nat) (field_name signature : String) :
    Except SendErr Nat × SendHandlerState :=
  match send_and_receive st (.referenceTypeFields class_id) with
  | (.ok (.referenceTypeFields fields), st') =>
    match find_field_in fields field_name signature with
    | some h => (.ok h, st')
    | none => (.error (.err ("Field " ++ field_name ++ " not found")), st')
  | (.ok _, st') => (.error (.panicked "Failed to get fields"), st')
  | (.error e, st') => (.error e, st')

/-- `SendHandler::invoke_class_method_return_object` (main.rs lines 787-820):
invoke a static method; the reply's exception slot is ignored; an object- or
class-object-typed return value is unwrapped, anything else is an error. -/
def invoke_class_method_return_object (st : SendHandlerState)
    (clazz method_id thread : Nat) (args : List JVal) :
    Except SendErr Nat × SendHandlerState :=
  match send_and_receive st (.classTypeInvokeMethod clazz thread method_id args) with
  | (.ok (.classTypeInvokeMethod return_value _exception), st') =>
    match return_value with
    | .object obj_id => (.ok obj_id, st')
    | .classObject obj_id => (.ok obj_id, st')
    | _ => (.error (.err "Expected object return value"), st')
  | (.ok _, st') => (.error (.panicked "Failed to invoke method"), st')
  | (.error e, st') => (.error e, st')

/-- `SendHandler::get_exception_string` (main.rs lines 920-968): resolve
`java.lang.Throwable` and its `getMessage` method, invoke it on the exception
object (a reply whose return value is not string-typed is a let-else panic),
then read the string contents. -/
def get_exception_string (st : SendHandlerState) (exception thread : Nat) :
    Except SendErr String × SendHandlerState :=
  match find_class st "Ljava/lang/Throwable;" with
  | (.ok th, st1) =>
    match find_method st1 th "getMessage" "()Ljava/lang/String;" with
    | (.ok get_message_method, st2) =>
      match send_and_receive st2
          (.objectReferenceInvokeMethod exception th thread get_message_method []) with
      | (.ok (.objectReferenceInvokeMethod (.string return_value) _), st3) =>
        match send_and_receive st3 (.stringReferenceValue return_value) with
        | (.ok (.stringReferenceValue string_value), st4) => (.ok string_value, st4)
        | (.ok _, st4) => (.error (.panicked "Failed to get string value"), st4)
        | (.error e, st4) => (.error e, st4)
      | (.ok _, st3) => (.error (.panicked "Failed to invoke method"), st3)
      | (.error e, st3) => (.error e, st3)
    | (.error e, st2) => (.error e, st2)
  | (.error e, st1) => (.error e, st1)

/-- `SendHandler::invoke_object_method_return_object` (main.rs lines 822-875):
invoke an instance method; a non-null exception slot turns into the
`"Method invocation threw an exception {msg}"` error with the message fetched
through `get_exception_string`; otherwise an object-, array-, class-object- or
string-typed return value is unwrapped. -/
def invoke_object_method_return_object (st : SendHandlerState)
    (clazz object method_id thread : Nat) (args : List JVal) :
    Except SendErr Nat × SendHandlerState :=
  match send_and_receive st (.objectReferenceInvokeMethod object clazz thread method_id args) with
  | (.ok (.objectReferenceInvokeMethod return_value exception), st') =>
    if exception ≠ 0 then
      match get_exception_string st' exception thread with
      | (.ok msg, st2) =>
        (.error (.err ("Method invocation threw an exception " ++ msg)), st2)
      | (.error e, st2) => (.error e, st2)
    else
      match return_value with
      | .object obj_id => (.ok obj_id, st')
      | .array obj_id => (.ok obj_id, st')
      | .classObject obj_id => (.ok obj_id, st')
      | .string obj_id => (.ok obj_id, st')
      | _ => (.error (.err "Expected object return value"), st')
  | (.ok _, st') => (.error (.panicked "Failed to invoke method"), st')
  | (.error e, st') => (.error e, st')

/-- `SendHandler::create_jvm_array_from_jdwpvalues` (main.rs lines 878-918):
resolve the array class by element signature, allocate a new array of the
values' length, then set all its elements starting at index 0. -/
def create_jvm_array_from_jdwpvalues (st : SendHandlerState)
    (elements_signature : String) (values : List JVal) :
    Except SendErr Nat × SendHandlerState :=
  match find_class st elements_signature with
  | (.ok clazz_array, st1) =>
    match send_and_receive st1 (.arrayTypeNewInstance clazz_array values.length) with
    | (.ok (.arrayTypeNewInstance new_array), st2) =>
      match send_and_receive st2 (.arrayReferenceSetValues new_array 0 values) with
      | (.ok _, st3) => (.ok new_array, st3)
      | (.error e, st3) => (.error e, st3)
    | (.ok _, st2) => (.error (.panicked "Failed to create array"), st2)
    | (.error e, st2) => (.error e, st2)
  | (.error e, st1) => (.error e, st1)

/-- The remote handles `calc_expression` receives from `handle_send`
(main.rs lines 539-557): classes, method handles, reflective `Method`
instances for the `BigInteger` operations, and the chosen thread. -/
structure CalcEnv where
  clazz_long : Nat
  method_long_value_of : Nat
  clazz_method : Nat
  value_of_method_instance : Nat
  add_method_instance : Nat
  subtract_method_instance : Nat
  multiply_method_instance : Nat
  divide_method_instance : Nat
  to_string_method_instance : Nat
  invoke_method : Nat
  current_thread : Nat
deriving DecidableEq, Repr

/-- Failure of `calc_expression`: a parse error (returned as the `Err(String)`
of `parse_input`) or a failure of the remote-invocation machinery. -/
inductive CalcErr where
  | parse (e : ParseErr)
  | send (e : SendErr)
deriving DecidableEq, Repr

/-- Lift a send-side failure into a `CalcErr` result. -/
def sendE {α : Type} : Except SendErr α → Except CalcErr α
  | .ok a => .ok a
  | .error e => .error (.send e)

/-- The `Expression::Number` arm of the evaluator loop (main.rs lines
997-1037): build a remote `Long` via `Long.valueOf(n)`, wrap it in a
one-element `Object[]`, and call `BigInteger.valueOf` reflectively
(`Method.invoke` on the `valueOf` `Method` instance with a null receiver,
modelled as object id 0). -/
def eval_number (env : CalcEnv) (n : Int) (st : SendHandlerState) :
    Except CalcErr Nat × SendHandlerState :=
  match invoke_class_method_return_object st env.clazz_long env.method_long_value_of
      env.current_thread [.long n] with
  | (.ok long_obj, st1) =>
    match create_jvm_array_from_jdwpvalues st1 "[Ljava/lang/Object;" [.object long_obj] with
    | (.ok arg, st2) =>
      match invoke_object_method_return_object st2 env.clazz_method
          env.value_of_method_instance env.invoke_method env.current_thread
          [.object 0, .array arg] with
      | (.ok h, st3) => (.ok h, st3)
      | (.error e, st3) => (.error (.send e), st3)
    | (.error e, st2) => (.error (.send e), st2)
  | (.error e, st1) => (.error (.send e), st1)

/-- The `Expression::Binary` arm of the evaluator loop (main.rs lines
1038-1074), applied after both operands have been popped: wrap the right
operand in a one-element `Object[]` and call the operator's `Method` instance
reflectively on the left operand. -/
def eval_binary (env : CalcEnv) (op : Operator) (a b : Nat) (st : SendHandlerState) :
    Except CalcErr Nat × SendHandlerState :=
  let op_method_instance :=
    match op with
    | .Add => env.add_method_instance
    | .Subtract => env.subtract_method_instance
    | .Multiply => env.multiply_method_instance
    | .Divide => env.divide_method_instance
  match create_jvm_array_from_jdwpvalues st "[Ljava/lang/Object;" [.object b] with
  | (.ok varargs, st1) =>
    match invoke_object_method_return_object st1 env.clazz_method op_method_instance
        env.invoke_method env.current_thread [.object a, .array varargs] with
    | (.ok h, st2) => (.ok h, st2)
    | (.error e, st2) => (.error (.send e), st2)
  | (.error e, st1) => (.error (.send e), st1)

/-- The evaluator loop of `calc_expression` (main.rs lines 994-1076) over the
operand stack of remote `BigInteger` handles (head of the list is the top of
the stack; Rust's `Vec::pop` pops the most recently pushed element).  Popping
from a stack with fewer than two entries is the `"Stack underflow"` panic. -/
def eval_instrs (env : CalcEnv) :
    List Expression → List Nat → SendHandlerState →
    Except CalcErr (List Nat) × SendHandlerState
  | [], stack, st => (.ok stack, st)
  | .Number n :: rest, stack, st =>
    match eval_number env n st with
    | (.ok h, st1) => eval_instrs env rest (h :: stack) st1
    | (.error e, st1) => (.error e, st1)
  | .Binary op :: rest, stack, st =>
    match stack with
    | b :: a :: stack' =>
      match eval_binary env op a b st with
      | (.ok h, st1) => eval_instrs env rest (h :: stack') st1
      | (.error e, st1) => (.error e, st1)
    | _ => (.error (.send (.panicked "Stack underflow")), st)

/-- `SendHandler::calc_expression` (main.rs lines 971-1119): parse the input
(a parse error is returned immediately, before any command is issued), run
the evaluator loop, pop the result handle, call `toString` on it reflectively
and read the resulting string's contents.  The `ParseErr`/`ofl` totalisation
artifacts of the embedded parser are mapped to errors that issue no
commands, exactly as the Rust `Err` branch does. -/
def calc_expression (st : SendHandlerState) (env : CalcEnv) (expr : List Char) :
    Except CalcErr String × SendHandlerState :=
  match parse_input expr with
  | .err e => (.error (.parse e), st)
  | .ofl => (.error (.send (.panicked "out of fuel")), st)
  | .ok exprs =>
    match eval_instrs env exprs [] st with
    | (.ok stack, st1) =>
      match stack with
      | result_bigint :: _ =>
        match invoke_object_method_return_object st1 env.clazz_method
            env.to_string_method_instance env.invoke_method env.current_thread
            [.object result_bigint, .array 0] with
        | (.ok result_string_obj, st2) =>
          match send_and_receive st2 (.stringReferenceValue result_string_obj) with
          | (.ok (.stringReferenceValue string_value), st3) => (.ok string_value, st3)
          | (.ok _, st3) => (.error (.send (.panicked "Failed to get string value")), st3)
          | (.error e, st3) => (.error (.send e), st3)
        | (.error e, st2) => (.error (.send e), st2)
      | [] => (.error (.send (.panicked "Stack underflow")), st1)
    | (.error e, st1) => (.error e, st1)

/-! ## Lemmas -/

/-- The tokenizer does not depend on its fuel once the fuel exceeds the input
length. -/
theorem tokenizeF_fuel_indep : ∀ (f : Nat), ∀ (g : Nat) (s : List Char),
    s.length < f → s.length < g → tokenizeF f s = tokenizeF g s := by
  intro f
  induction f with
  | zero => intro g s hf hg; omega
  | succ f ihf =>
    intro g s hf hg
    match g, hg with
    | g + 1, hg =>
      rw [tokenizeF, tokenizeF]
      cases hd : s.dropWhile Char.isWhitespace with
      | nil => rfl
      | cons c cs =>
        dsimp only
        have hcl : (c :: cs).length ≤ s.length :=
          hd ▸ (List.dropWhile_suffix Char.isWhitespace).length_le
        simp only [List.length_cons] at hcl
        cases hc : c.isDigit with
        | true =>
          rw [if_pos rfl, if_pos rfl]
          have hdrop : ((c :: cs).dropWhile Char.isDigit).length ≤ cs.length := by
            rw [List.dropWhile_cons_of_pos hc]
            exact (List.dropWhile_suffix Char.isDigit).length_le
          rw [ihf g ((c :: cs).dropWhile Char.isDigit) (by omega) (by omega)]
        | false =>
          rw [if_neg (by simp), if_neg (by simp)]
          rw [ihf g cs (by omega) (by omega)]

/-- Unfolding `tokenize` when the input is all whitespace. -/
theorem tokenize_eq_nil {s : List Char} (h : s.dropWhile Char.isWhitespace = []) :
    tokenize s = [] := by
  rw [tokenize, tokenizeF, h]

/-- Unfolding `tokenize` when the first non-whitespace character is a digit. -/
theorem tokenize_eq_digit {s : List Char} {c : Char} {cs : List Char}
    (h : s.dropWhile Char.isWhitespace = c :: cs) (hc : c.isDigit = true) :
    tokenize s =
      .num ((c :: cs).takeWhile Char.isDigit) :: tokenize ((c :: cs).dropWhile Char.isDigit) := by
  have hcl : (c :: cs).length ≤ s.length :=
    h ▸ (List.dropWhile_suffix Char.isWhitespace).length_le
  simp only [List.length_cons] at hcl
  have hdrop : ((c :: cs).dropWhile Char.isDigit).length ≤ cs.length := by
    rw [List.dropWhile_cons_of_pos hc]
    exact (List.dropWhile_suffix Char.isDigit).length_le
  rw [tokenize, tokenizeF, h]
  dsimp only
  rw [if_pos hc, tokenize]
  rw [tokenizeF_fuel_indep (s.length) (((c :: cs).dropWhile Char.isDigit).length + 1)
    ((c :: cs).dropWhile Char.isDigit) (by omega) (by omega)]

/-- Unfolding `tokenize` when the first non-whitespace character is not a
digit. -/
theorem tokenize_eq_sym {s : List Char} {c : Char} {cs : List Char}
    (h : s.dropWhile Char.isWhitespace = c :: cs) (hc : c.isDigit = false) :
    tokenize s = .sym c :: tokenize cs := by
  have hcl : (c :: cs).length ≤ s.length :=
    h ▸ (List.dropWhile_suffix Char.isWhitespace).length_le
  simp only [List.length_cons] at hcl
  rw [tokenize, tokenizeF, h]
  dsimp only
  rw [if_neg (by simp [hc]), tokenize]
  rw [tokenizeF_fuel_indep (s.length) (cs.length + 1) cs (by omega) (by omega)]

/-- A string tokenizes to nothing exactly when it is all whitespace. -/
theorem tokenize_eq_nil_iff {s : List Char} :
    tokenize s = [] ↔ s.dropWhile Char.isWhitespace = [] := by
  constructor
  · intro h
    cases hd : s.dropWhile Char.isWhitespace with
    | nil => rfl
    | cons c cs =>
      cases hc : c.isDigit with
      | true => rw [tokenize_eq_digit hd hc] at h; exact absurd h (by simp)
      | false => rw [tokenize_eq_sym hd hc] at h; exact absurd h (by simp)
  · exact tokenize_eq_nil

/-- `remain.trim().is_empty()` holds exactly when the remainder is all
whitespace. -/
theorem rustTrim_eq_nil_iff {s : List Char} :
    rustTrim s = [] ↔ s.dropWhile Char.isWhitespace = [] := by
  unfold rustTrim
  constructor
  · intro h
    have h2 := List.reverse_eq_nil_iff.mp h
    have h3 : ∀ x ∈ (s.dropWhile Char.isWhitespace).reverse, Char.isWhitespace x := by
      rw [← List.dropWhile_eq_nil_iff]
      exact h2
    cases hd : s.dropWhile Char.isWhitespace with
    | nil => rfl
    | cons c cs =>
      have hc : Char.isWhitespace c := by
        apply h3
        simp [hd]
      have := List.head?_dropWhile_not Char.isWhitespace s
      rw [hd] at this
      simp [hc] at this
  · intro h
    rw [h]
    simp

/-- Projection of a successful character-level result. -/
theorem liftInner_ok {es : List Expression} {r : List Char} :
    liftInner (.ok (es, r)) = .ok (es, tokenize r) := rfl

/-- Token-level reading of the number branch of `parse_primary`. -/
theorem liftInner_parseNumberFrom {s : List Char} :
    liftInner (parseNumberFrom s) =
      if s.takeWhile Char.isDigit = [] then .err .expectedNumber
      else if digitsToNat (s.takeWhile Char.isDigit) ≤ i64MaxNat then
        .ok ([.Number ((digitsToNat (s.takeWhile Char.isDigit) : Nat) : Int)],
          tokenize (s.dropWhile Char.isDigit))
      else .err .invalidNumber := by
  rw [parseNumberFrom]
  by_cases h1 : s.takeWhile Char.isDigit = []
  · simp [h1, liftInner, classOf]
  · by_cases h2 : digitsToNat (s.takeWhile Char.isDigit) ≤ i64MaxNat
    · simp [h1, h2, liftInner]
    · simp [h1, h2, liftInner, classOf]

/-- Lockstep refinement: at every fuel level, each character-level parsing
function agrees with its token-level counterpart on the tokenization of its
input, up to projecting error payloads to error classes. -/
theorem lockstep : ∀ f : Nat,
    (∀ s, liftInner (parse_add_sub f s) = tok_add_sub f (tokenize s))
  ∧ (∀ es s, liftInner (parse_add_sub_aux f es s) = tok_add_sub_aux f es (tokenize s))
  ∧ (∀ s, liftInner (parse_mul_div f s) = tok_mul_div f (tokenize s))
  ∧ (∀ es s, liftInner (parse_mul_div_aux f es s) = tok_mul_div_aux f es (tokenize s))
  ∧ (∀ s, liftInner (parse_primary f s) = tok_primary f (tokenize s)) := by
  intro f
  induction f with
  | zero =>
    exact ⟨fun s => rfl, fun es s => rfl, fun s => rfl, fun es s => rfl, fun s => rfl⟩
  | succ f ih =>
    obtain ⟨ih_add, ih_addaux, ih_mul, ih_mulaux, ih_prim⟩ := ih
    have goal_prim : ∀ s, liftInner (parse_primary (f + 1) s) = tok_primary (f + 1) (tokenize s) := by
      intro s
      rw [parse_primary]
      cases hd : s.dropWhile Char.isWhitespace with
      | nil =>
        rw [tokenize_eq_nil hd]
        rfl
      | cons c after =>
        try dsimp only
        by_cases hparen : c = '('
        · subst hparen
          rw [tokenize_eq_sym hd (by decide)]
          rw [if_pos rfl, tok_primary, if_pos rfl]
          rw [← ih_add after]
          cases hin : parse_add_sub f after with
          | ok p =>
            obtain ⟨es, rest⟩ := p
            rw [liftInner_ok]
            try dsimp only
            cases hd2 : rest.dropWhile Char.isWhitespace with
            | nil => rw [tokenize_eq_nil hd2]; rfl
            | cons c2 rem =>
              try dsimp only
              by_cases hc2 : c2 = ')'
              · subst hc2
                rw [tokenize_eq_sym hd2 (by decide)]
                rfl
              · rw [if_neg hc2]
                cases hcd2 : c2.isDigit with
                | true =>
                  rw [tokenize_eq_digit hd2 hcd2]
                  rfl
                | false =>
                  rw [tokenize_eq_sym hd2 hcd2]
                  try dsimp only
                  rw [if_neg hc2]
                  rfl
          | err e => rfl
          | ofl => rfl
        · rw [if_neg hparen, liftInner_parseNumberFrom]
          cases hcd : c.isDigit with
          | true =>
            rw [tokenize_eq_digit hd hcd]
            rw [if_neg (by rw [List.takeWhile_cons_of_pos hcd]; simp)]
            rfl
          | false =>
            rw [tokenize_eq_sym hd hcd]
            rw [if_pos (List.takeWhile_cons_of_neg (by simp [hcd]))]
            dsimp only [tok_primary]
            rw [if_neg hparen]
    have goal_mulaux : ∀ es s,
        liftInner (parse_mul_div_aux (f + 1) es s) = tok_mul_div_aux (f + 1) es (tokenize s) := by
      intro es s
      rw [parse_mul_div_aux]
      cases hd : s.dropWhile Char.isWhitespace with
      | nil =>
        try dsimp only
        rw [liftInner_ok, tokenize_eq_nil hd]
        rfl
      | cons c next =>
        try dsimp only
        by_cases h1 : c = '*'
        · subst h1
          rw [tokenize_eq_sym hd (by decide), if_pos rfl]
          rw [tok_mul_div_aux]
          try dsimp only
          rw [if_pos rfl, ← ih_prim next]
          cases hp : parse_primary f next with
          | ok p =>
            obtain ⟨es2, rest2⟩ := p
            rw [liftInner_ok]
            exact ih_mulaux _ rest2
          | err e => rfl
          | ofl => rfl
        · by_cases h2 : c = '/'
          · subst h2
            rw [tokenize_eq_sym hd (by decide), if_neg h1, if_pos rfl]
            rw [tok_mul_div_aux]
            try dsimp only
            rw [if_neg h1, if_pos rfl, ← ih_prim next]
            cases hp : parse_primary f next with
            | ok p =>
              obtain ⟨es2, rest2⟩ := p
              rw [liftInner_ok]
              exact ih_mulaux _ rest2
            | err e => rfl
            | ofl => rfl
          · rw [if_neg h1, if_neg h2, liftInner_ok]
            cases hcd : c.isDigit with
            | true =>
              rw [tokenize_eq_digit hd hcd]
              rfl
            | false =>
              rw [tokenize_eq_sym hd hcd]
              rw [tok_mul_div_aux]
              try dsimp only
              rw [if_neg h1, if_neg h2]
    have goal_mul : ∀ s, liftInner (parse_mul_div (f + 1) s) = tok_mul_div (f + 1) (tokenize s) := by
      intro s
      rw [parse_mul_div, tok_mul_div, ← ih_prim s]
      cases hp : parse_primary f s with
      | ok p =>
        obtain ⟨es, rest⟩ := p
        rw [liftInner_ok]
        try dsimp only
        exact ih_mulaux es rest
      | err e => rfl
      | ofl => rfl
    have goal_addaux : ∀ es s,
        liftInner (parse_add_sub_aux (f + 1) es s) = tok_add_sub_aux (f + 1) es (tokenize s) := by
      intro es s
      rw [parse_add_sub_aux]
      cases hd : s.dropWhile Char.isWhitespace with
      | nil =>
        try dsimp only
        rw [liftInner_ok, tokenize_eq_nil hd]
        rfl
      | cons c next =>
        try dsimp only
        by_cases h1 : c = '+'
        · subst h1
          rw [tokenize_eq_sym hd (by decide), if_pos rfl]
          rw [tok_add_sub_aux]
          try dsimp only
          rw [if_pos rfl, ← ih_mul next]
          cases hp : parse_mul_div f next with
          | ok p =>
            obtain ⟨es2, rest2⟩ := p
            rw [liftInner_ok]
            exact ih_addaux _ rest2
          | err e => rfl
          | ofl => rfl
        · by_cases h2 : c = '-'
          · subst h2
            rw [tokenize_eq_sym hd (by decide), if_neg h1, if_pos rfl]
            rw [tok_add_sub_aux]
            try dsimp only
            rw [if_neg h1, if_pos rfl, ← ih_mul next]
            cases hp : parse_mul_div f next with
            | ok p =>
              obtain ⟨es2, rest2⟩ := p
              rw [liftInner_ok]
              exact ih_addaux _ rest2
            | err e => rfl
            | ofl => rfl
          · rw [if_neg h1, if_neg h2, liftInner_ok]
            cases hcd : c.isDigit with
            | true =>
              rw [tokenize_eq_digit hd hcd]
              rfl
            | false =>
              rw [tokenize_eq_sym hd hcd]
              rw [tok_add_sub_aux]
              try dsimp only
              rw [if_neg h1, if_neg h2]
    have goal_add : ∀ s, liftInner (parse_add_sub (f + 1) s) = tok_add_sub (f + 1) (tokenize s) := by
      intro s
      rw [parse_add_sub, tok_add_sub, ← ih_mul s]
      cases hp : parse_mul_div f s with
      | ok p =>
        obtain ⟨es, rest⟩ := p
        rw [liftInner_ok]
        try dsimp only
        exact ih_addaux es rest
      | err e => rfl
      | ofl => rfl
    exact ⟨goal_add, goal_addaux, goal_mul, goal_mulaux, goal_prim⟩

/-- The token-level parser never runs out of fuel when given at least
`3 * (number of tokens) + 3` fuel, and on success it strictly consumes
input tokens. -/
theorem tok_fuel_sufficient : ∀ f : Nat,
    (∀ ts : List Tok, 3 * ts.length + 3 ≤ f → tok_add_sub f ts ≠ .ofl ∧
      (∀ es' ts', tok_add_sub f ts = .ok (es', ts') → ts'.length < ts.length))
  ∧ (∀ (es : List Expression) (ts : List Tok), 3 * ts.length + 2 ≤ f →
      tok_add_sub_aux f es ts ≠ .ofl ∧
      (∀ es' ts', tok_add_sub_aux f es ts = .ok (es', ts') → ts'.length ≤ ts.length))
  ∧ (∀ ts : List Tok, 3 * ts.length + 2 ≤ f → tok_mul_div f ts ≠ .ofl ∧
      (∀ es' ts', tok_mul_div f ts = .ok (es', ts') → ts'.length < ts.length))
  ∧ (∀ (es : List Expression) (ts : List Tok), 3 * ts.length + 1 ≤ f →
      tok_mul_div_aux f es ts ≠ .ofl ∧
      (∀ es' ts', tok_mul_div_aux f es ts = .ok (es', ts') → ts'.length ≤ ts.length))
  ∧ (∀ ts : List Tok, 3 * ts.length + 1 ≤ f → tok_primary f ts ≠ .ofl ∧
      (∀ es' ts', tok_primary f ts = .ok (es', ts') → ts'.length < ts.length)) := by
  intro f
  induction f with
  | zero =>
    refine ⟨fun ts h => absurd h (by omega), fun es ts h => absurd h (by omega),
      fun ts h => absurd h (by omega), fun es ts h => absurd h (by omega),
      fun ts h => absurd h (by omega)⟩
  | succ f ih =>
    obtain ⟨ih_add, ih_addaux, ih_mul, ih_mulaux, ih_prim⟩ := ih
    have goal_prim : ∀ ts : List Tok, 3 * ts.length + 1 ≤ f + 1 → tok_primary (f + 1) ts ≠ .ofl ∧
        (∀ es' ts', tok_primary (f + 1) ts = .ok (es', ts') → ts'.length < ts.length) := by
      intro ts hf
      match ts with
      | [] =>
        rw [tok_primary]
        exact ⟨by simp, by simp⟩
      | .num ds :: ts1 =>
        rw [tok_primary]
        by_cases hle : digitsToNat ds ≤ i64MaxNat
        · rw [if_pos hle]
          refine ⟨by simp, ?_⟩
          intro es' ts' h
          simp only [PResult.ok.injEq, Prod.mk.injEq] at h
          simp [← h.2]
        · rw [if_neg hle]
          exact ⟨by simp, by simp⟩
      | .sym c :: ts1 =>
        rw [tok_primary]
        by_cases hc : c = '('
        · rw [if_pos hc]
          simp only [List.length_cons] at hf
          have hadd := ih_add ts1 (by omega)
          cases hin : tok_add_sub f ts1 with
          | ofl => exact absurd hin hadd.1
          | err e => exact ⟨by simp, by simp⟩
          | ok p =>
            obtain ⟨es, ts2⟩ := p
            have hlt := hadd.2 es ts2 hin
            match ts2, hlt with
            | [], hlt => exact ⟨by simp, by simp⟩
            | .num ds2 :: ts3, hlt => exact ⟨by simp, by simp⟩
            | .sym c2 :: ts3, hlt =>
              try dsimp only
              by_cases hc2 : c2 = ')'
              · rw [if_pos hc2]
                refine ⟨by simp, ?_⟩
                intro es' ts' h
                simp only [PResult.ok.injEq, Prod.mk.injEq] at h
                simp only [List.length_cons] at hlt
                simp only [List.length_cons, ← h.2]
                omega
              · rw [if_neg hc2]
                exact ⟨by simp, by simp⟩
        · rw [if_neg hc]
          exact ⟨by simp, by simp⟩
    have goal_mulaux : ∀ (es : List Expression) (ts : List Tok), 3 * ts.length + 1 ≤ f + 1 →
        tok_mul_div_aux (f + 1) es ts ≠ .ofl ∧
        (∀ es' ts', tok_mul_div_aux (f + 1) es ts = .ok (es', ts') → ts'.length ≤ ts.length) := by
      intro es ts hf
      match ts with
      | [] =>
        rw [tok_mul_div_aux]
        · refine ⟨by simp, ?_⟩
          intro es' ts' h
          simp only [PResult.ok.injEq, Prod.mk.injEq] at h
          simp [← h.2]
        · intro c2 ts2 hcontra
          simp at hcontra
      | .num ds :: ts1 =>
        rw [tok_mul_div_aux]
        · refine ⟨by simp, ?_⟩
          intro es' ts' h
          simp only [PResult.ok.injEq, Prod.mk.injEq] at h
          simp [← h.2]
        · intro c2 ts2 hcontra
          simp at hcontra
      | .sym c :: ts1 =>
        rw [tok_mul_div_aux]
        simp only [List.length_cons] at hf
        by_cases h1 : c = '*'
        · rw [if_pos h1]
          have hprim := ih_prim ts1 (by omega)
          cases hp : tok_primary f ts1 with
          | ofl => exact absurd hp hprim.1
          | err e => exact ⟨by simp, by simp⟩
          | ok p =>
            obtain ⟨es2, ts2⟩ := p
            have hlt := hprim.2 es2 ts2 hp
            have haux := ih_mulaux (es ++ es2 ++ [.Binary .Multiply]) ts2 (by omega)
            refine ⟨haux.1, ?_⟩
            intro es' ts' h
            have := haux.2 es' ts' h
            simp only [List.length_cons]
            omega
        · rw [if_neg h1]
          by_cases h2 : c = '/'
          · rw [if_pos h2]
            have hprim := ih_prim ts1 (by omega)
            cases hp : tok_primary f ts1 with
            | ofl => exact absurd hp hprim.1
            | err e => exact ⟨by simp, by simp⟩
            | ok p =>
              obtain ⟨es2, ts2⟩ := p
              have hlt := hprim.2 es2 ts2 hp
              have haux := ih_mulaux (es ++ es2 ++ [.Binary .Divide]) ts2 (by omega)
              refine ⟨haux.1, ?_⟩
              intro es' ts' h
              have := haux.2 es' ts' h
              simp only [List.length_cons]
              omega
          · rw [if_neg h2]
            refine ⟨by simp, ?_⟩
            intro es' ts' h
            simp only [PResult.ok.injEq, Prod.mk.injEq] at h
            simp [← h.2]
    have goal_mul : ∀ ts : List Tok, 3 * ts.length + 2 ≤ f + 1 → tok_mul_div (f + 1) ts ≠ .ofl ∧
        (∀ es' ts', tok_mul_div (f + 1) ts = .ok (es', ts') → ts'.length < ts.length) := by
      intro ts hf
      rw [tok_mul_div]
      have hprim := ih_prim ts (by omega)
      cases hp : tok_primary f ts with
      | ofl => exact absurd hp hprim.1
      | err e => exact ⟨by simp, by simp⟩
      | ok p =>
        obtain ⟨es, ts1⟩ := p
        have hlt := hprim.2 es ts1 hp
        have haux := ih_mulaux es ts1 (by omega)
        refine ⟨haux.1, ?_⟩
        intro es' ts' h
        have := haux.2 es' ts' h
        omega
    have goal_addaux : ∀ (es : List Expression) (ts : List Tok), 3 * ts.length + 2 ≤ f + 1 →
        tok_add_sub_aux (f + 1) es ts ≠ .ofl ∧
        (∀ es' ts', tok_add_sub_aux (f + 1) es ts = .ok (es', ts') → ts'.length ≤ ts.length) := by
      intro es ts hf
      match ts with
      | [] =>
        rw [tok_add_sub_aux]
        · refine ⟨by simp, ?_⟩
          intro es' ts' h
          simp only [PResult.ok.injEq, Prod.mk.injEq] at h
          simp [← h.2]
        · intro c2 ts2 hcontra
          simp at hcontra
      | .num ds :: ts1 =>
        rw [tok_add_sub_aux]
        · refine ⟨by simp, ?_⟩
          intro es' ts' h
          simp only [PResult.ok.injEq, Prod.mk.injEq] at h
          simp [← h.2]
        · intro c2 ts2 hcontra
          simp at hcontra
      | .sym c :: ts1 =>
        rw [tok_add_sub_aux]
        simp only [List.length_cons] at hf
        by_cases h1 : c = '+'
        · rw [if_pos h1]
          have hmul := ih_mul ts1 (by omega)
          cases hp : tok_mul_div f ts1 with
          | ofl => exact absurd hp hmul.1
          | err e => exact ⟨by simp, by simp⟩
          | ok p =>
            obtain ⟨es2, ts2⟩ := p
            have hlt := hmul.2 es2 ts2 hp
            have haux := ih_addaux (es ++ es2 ++ [.Binary .Add]) ts2 (by omega)
            refine ⟨haux.1, ?_⟩
            intro es' ts' h
            have := haux.2 es' ts' h
            simp only [List.length_cons]
            omega
        · rw [if_neg h1]
          by_cases h2 : c = '-'
          · rw [if_pos h2]
            have hmul := ih_mul ts1 (by omega)
            cases hp : tok_mul_div f ts1 with
            | ofl => exact absurd hp hmul.1
            | err e => exact ⟨by simp, by simp⟩
            | ok p =>
              obtain ⟨es2, ts2⟩ := p
              have hlt := hmul.2 es2 ts2 hp
              have haux := ih_addaux (es ++ es2 ++ [.Binary .Subtract]) ts2 (by omega)
              refine ⟨haux.1, ?_⟩
              intro es' ts' h
              have := haux.2 es' ts' h
              simp only [List.length_cons]
              omega
          · rw [if_neg h2]
            refine ⟨by simp, ?_⟩
            intro es' ts' h
            simp only [PResult.ok.injEq, Prod.mk.injEq] at h
            simp [← h.2]
    have goal_add : ∀ ts : List Tok, 3 * ts.length + 3 ≤ f + 1 → tok_add_sub (f + 1) ts ≠ .ofl ∧
        (∀ es' ts', tok_add_sub (f + 1) ts = .ok (es', ts') → ts'.length < ts.length) := by
      intro ts hf
      rw [tok_add_sub]
      have hmul := ih_mul ts (by omega)
      cases hp : tok_mul_div f ts with
      | ofl => exact absurd hp hmul.1
      | err e => exact ⟨by simp, by simp⟩
      | ok p =>
        obtain ⟨es, ts1⟩ := p
        have hlt := hmul.2 es ts1 hp
        have haux := ih_addaux es ts1 (by omega)
        refine ⟨haux.1, ?_⟩
        intro es' ts' h
        have := haux.2 es' ts' h
        omega
    exact ⟨goal_add, goal_addaux, goal_mul, goal_mulaux, goal_prim⟩

/-- Fuel monotonicity: a token-level result other than out-of-fuel is stable
under one more unit of fuel. -/
theorem tok_mono_step : ∀ f : Nat,
    (∀ ts, tok_add_sub f ts ≠ .ofl → tok_add_sub (f + 1) ts = tok_add_sub f ts)
  ∧ (∀ es ts, tok_add_sub_aux f es ts ≠ .ofl → tok_add_sub_aux (f + 1) es ts = tok_add_sub_aux f es ts)
  ∧ (∀ ts, tok_mul_div f ts ≠ .ofl → tok_mul_div (f + 1) ts = tok_mul_div f ts)
  ∧ (∀ es ts, tok_mul_div_aux f es ts ≠ .ofl → tok_mul_div_aux (f + 1) es ts = tok_mul_div_aux f es ts)
  ∧ (∀ ts, tok_primary f ts ≠ .ofl → tok_primary (f + 1) ts = tok_primary f ts) := by
  intro f
  induction f with
  | zero =>
    refine ⟨fun ts h => absurd rfl h, fun es ts h => absurd rfl h, fun ts h => absurd rfl h,
      fun es ts h => absurd rfl h, fun ts h => absurd rfl h⟩
  | succ f ih =>
    obtain ⟨ih_add, ih_addaux, ih_mul, ih_mulaux, ih_prim⟩ := ih
    have goal_add : ∀ ts, tok_add_sub (f + 1) ts ≠ .ofl →
        tok_add_sub (f + 1 + 1) ts = tok_add_sub (f + 1) ts := by
      intro ts hne
      rw [tok_add_sub] at hne
      rw [tok_add_sub, tok_add_sub]
      have hne2 : tok_mul_div f ts ≠ .ofl := by
        intro hofl
        rw [hofl] at hne
        exact hne rfl
      rw [ih_mul ts hne2]
      cases hp : tok_mul_div f ts with
      | ofl => exact absurd hp hne2
      | err e => rfl
      | ok p =>
        obtain ⟨es, ts1⟩ := p
        rw [hp] at hne
        exact ih_addaux es ts1 hne
    have goal_addaux : ∀ es ts, tok_add_sub_aux (f + 1) es ts ≠ .ofl →
        tok_add_sub_aux (f + 1 + 1) es ts = tok_add_sub_aux (f + 1) es ts := by
      intro es ts hne
      match ts with
      | [] => rfl
      | .num ds :: ts1 => rfl
      | .sym c :: ts1 =>
        by_cases h1 : c = '+'
        · rw [tok_add_sub_aux, if_pos h1] at hne
          rw [tok_add_sub_aux, tok_add_sub_aux, if_pos h1, if_pos h1]
          have hne2 : tok_mul_div f ts1 ≠ .ofl := by
            intro hofl
            rw [hofl] at hne
            exact hne rfl
          rw [ih_mul ts1 hne2]
          cases hp : tok_mul_div f ts1 with
          | ofl => exact absurd hp hne2
          | err e => rfl
          | ok p =>
            obtain ⟨es2, ts2⟩ := p
            rw [hp] at hne
            exact ih_addaux _ ts2 hne
        · by_cases h2 : c = '-'
          · rw [tok_add_sub_aux, if_neg h1, if_pos h2] at hne
            rw [tok_add_sub_aux, tok_add_sub_aux, if_neg h1, if_neg h1, if_pos h2, if_pos h2]
            have hne2 : tok_mul_div f ts1 ≠ .ofl := by
              intro hofl
              rw [hofl] at hne
              exact hne rfl
            rw [ih_mul ts1 hne2]
            cases hp : tok_mul_div f ts1 with
            | ofl => exact absurd hp hne2
            | err e => rfl
            | ok p =>
              obtain ⟨es2, ts2⟩ := p
              rw [hp] at hne
              exact ih_addaux _ ts2 hne
          · rw [tok_add_sub_aux, tok_add_sub_aux, if_neg h1, if_neg h1, if_neg h2, if_neg h2]
    have goal_mul : ∀ ts, tok_mul_div (f + 1) ts ≠ .ofl →
        tok_mul_div (f + 1 + 1) ts = tok_mul_div (f + 1) ts := by
      intro ts hne
      rw [tok_mul_div] at hne
      rw [tok_mul_div, tok_mul_div]
      have hne2 : tok_primary f ts ≠ .ofl := by
        intro hofl
        rw [hofl] at hne
        exact hne rfl
      rw [ih_prim ts hne2]
      cases hp : tok_primary f ts with
      | ofl => exact absurd hp hne2
      | err e => rfl
      | ok p =>
        obtain ⟨es, ts1⟩ := p
        rw [hp] at hne
        exact ih_mulaux es ts1 hne
    have goal_mulaux : ∀ es ts, tok_mul_div_aux (f + 1) es ts ≠ .ofl →
        tok_mul_div_aux (f + 1 + 1) es ts = tok_mul_div_aux (f + 1) es ts := by
      intro es ts hne
      match ts with
      | [] => rfl
      | .num ds :: ts1 => rfl
      | .sym c :: ts1 =>
        by_cases h1 : c = '*'
        · rw [tok_mul_div_aux, if_pos h1] at hne
          rw [tok_mul_div_aux, tok_mul_div_aux, if_pos h1, if_pos h1]
          have hne2 : tok_primary f ts1 ≠ .ofl := by
            intro hofl
            rw [hofl] at hne
            exact hne rfl
          rw [ih_prim ts1 hne2]
          cases hp : tok_primary f ts1 with
          | ofl => exact absurd hp hne2
          | err e => rfl
          | ok p =>
            obtain ⟨es2, ts2⟩ := p
            rw [hp] at hne
            exact ih_mulaux _ ts2 hne
        · by_cases h2 : c = '/'
          · rw [tok_mul_div_aux, if_neg h1, if_pos h2] at hne
            rw [tok_mul_div_aux, tok_mul_div_aux, if_neg h1, if_neg h1, if_pos h2, if_pos h2]
            have hne2 : tok_primary f ts1 ≠ .ofl := by
              intro hofl
              rw [hofl] at hne
              exact hne rfl
            rw [ih_prim ts1 hne2]
            cases hp : tok_primary f ts1 with
            | ofl => exact absurd hp hne2
            | err e => rfl
            | ok p =>
              obtain ⟨es2, ts2⟩ := p
              rw [hp] at hne
              exact ih_mulaux _ ts2 hne
          · rw [tok_mul_div_aux, tok_mul_div_aux, if_neg h1, if_neg h1, if_neg h2, if_neg h2]
    have goal_prim : ∀ ts, tok_primary (f + 1) ts ≠ .ofl →
        tok_primary (f + 1 + 1) ts = tok_primary (f + 1) ts := by
      intro ts hne
      match ts with
      | [] => rfl
      | .num ds :: ts1 => rfl
      | .sym c :: ts1 =>
        by_cases hc : c = '('
        · rw [tok_primary, if_pos hc] at hne
          rw [tok_primary, tok_primary, if_pos hc, if_pos hc]
          have hne2 : tok_add_sub f ts1 ≠ .ofl := by
            intro hofl
            rw [hofl] at hne
            exact hne rfl
          rw [ih_add ts1 hne2]
        · rw [tok_primary, tok_primary, if_neg hc, if_neg hc]
    exact ⟨goal_add, goal_addaux, goal_mul, goal_mulaux, goal_prim⟩

/-- Fuel monotonicity, transitive form, for `tok_add_sub`. -/
theorem tok_add_sub_mono_le {f g : Nat} (hfg : f ≤ g) {ts : List Tok}
    (hne : tok_add_sub f ts ≠ .ofl) : tok_add_sub g ts = tok_add_sub f ts := by
  induction g with
  | zero =>
    have : f = 0 := Nat.le_zero.mp hfg
    rw [this]
  | succ g ihg =>
    rcases Nat.lt_or_ge f (g + 1) with hlt | hge
    · have hle : f ≤ g := Nat.lt_succ_iff.mp hlt
      have heq := ihg hle
      rw [← heq] at hne
      rw [(tok_mono_step g).1 ts (heq ▸ hne)]
      exact heq
    · have : f = g + 1 := Nat.le_antisymm hfg hge
      rw [this]

/-- A string has at most as many tokens as characters. -/
theorem tokenize_length_le : ∀ (n : Nat) (s : List Char), s.length ≤ n →
    (tokenize s).length ≤ s.length := by
  intro n
  induction n with
  | zero =>
    intro s h
    have : s = [] := List.length_eq_zero.mp (Nat.le_zero.mp h)
    subst this
    rw [tokenize_eq_nil (by simp)]
    exact Nat.le_refl _
  | succ n ihn =>
    intro s hlen
    cases hd : s.dropWhile Char.isWhitespace with
    | nil =>
      rw [tokenize_eq_nil hd]
      simp
    | cons c cs =>
      have hcl : (c :: cs).length ≤ s.length :=
        hd ▸ (List.dropWhile_suffix Char.isWhitespace).length_le
      simp only [List.length_cons] at hcl
      cases hc : c.isDigit with
      | true =>
        rw [tokenize_eq_digit hd hc]
        have hdrop : ((c :: cs).dropWhile Char.isDigit).length ≤ cs.length := by
          rw [List.dropWhile_cons_of_pos hc]
          exact (List.dropWhile_suffix Char.isDigit).length_le
        have hrec := ihn ((c :: cs).dropWhile Char.isDigit) (by omega)
        simp only [List.length_cons]
        omega
      | false =>
        rw [tokenize_eq_sym hd hc]
        have hrec := ihn cs (by omega)
        simp only [List.length_cons]
        omega

/-- The fuel `parse_input` supplies is enough for the token-level parser. -/
theorem parseFuel_sufficient (s : List Char) :
    3 * (tokenize s).length + 3 ≤ parseFuel s := by
  have := tokenize_length_le s.length s (Nat.le_refl _)
  rw [parseFuel]
  omega

/-- With the fuel `parse_input` supplies, the parser never runs out. -/
theorem parse_add_sub_input_ne_ofl (s : List Char) :
    parse_add_sub (parseFuel s) s ≠ .ofl := by
  intro hofl
  have hl := (lockstep (parseFuel s)).1 s
  rw [hofl] at hl
  have hsuff := ((tok_fuel_sufficient (parseFuel s)).1 (tokenize s) (parseFuel_sufficient s)).1
  exact hsuff hl.symm

/-- `parse_input` never reports the fuel artifact: it either succeeds or
returns one of the four parse errors, as in the Rust code. -/
theorem parse_input_ne_ofl (s : List Char) : parse_input s ≠ .ofl := by
  rw [parse_input]
  cases hp : parse_add_sub (parseFuel s) s with
  | ok p =>
    obtain ⟨es, remain⟩ := p
    by_cases ht : rustTrim remain = [] <;> simp [ht]
  | err e => simp
  | ofl => exact absurd hp (parse_add_sub_input_ne_ofl s)

/-- `parse_input` factors through the token sequence of its input: its
result, up to error classes, is the token-level parse. -/
theorem parse_input_factor (s : List Char) :
    liftTop (parse_input s) = tok_parse (parseFuel s) (tokenize s) := by
  rw [parse_input, tok_parse, ← (lockstep (parseFuel s)).1 s]
  cases hp : parse_add_sub (parseFuel s) s with
  | ok p =>
    obtain ⟨es, remain⟩ := p
    rw [liftInner_ok]
    try dsimp only
    by_cases ht : tokenize remain = []
    · rw [if_pos ht, if_pos (rustTrim_eq_nil_iff.mpr (tokenize_eq_nil_iff.mp ht))]
      rfl
    · rw [if_neg ht, if_neg (fun hh => ht (tokenize_eq_nil_iff.mpr (rustTrim_eq_nil_iff.mp hh)))]
      rfl
  | err e => rfl
  | ofl => rfl

/-- The token-level parse does not depend on the fuel, once sufficient. -/
theorem tok_parse_fuel_indep {f g : Nat} {ts : List Tok}
    (hf : 3 * ts.length + 3 ≤ f) (hg : 3 * ts.length + 3 ≤ g) :
    tok_parse f ts = tok_parse g ts := by
  have hne : tok_add_sub (3 * ts.length + 3) ts ≠ .ofl :=
    ((tok_fuel_sufficient (3 * ts.length + 3)).1 ts (Nat.le_refl _)).1
  rw [tok_parse, tok_parse, tok_add_sub_mono_le hf hne, tok_add_sub_mono_le hg hne]

/-- Executing the postfix rendering of a tree pushes exactly its value. -/
theorem stackRun_compile : ∀ (a : AExp) (k : List Expression) (σ : List Int),
    stackRun (compile a ++ k) σ = stackRun k (evalA a :: σ) := by
  intro a
  induction a with
  | num n => intro k σ; rfl
  | bin op l r ihl ihr =>
    intro k σ
    rw [compile, evalA]
    rw [List.append_assoc, List.append_assoc]
    rw [ihl, ihr]
    rfl

/-- The depth shadow of `stackRun_compile`: a compiled tree always nets one
new stack entry and never underflows. -/
theorem depthRun_compile : ∀ (a : AExp) (k : List Expression) (d : Nat),
    depthRun (compile a ++ k) d = depthRun k (d + 1) := by
  intro a
  induction a with
  | num n => intro k d; rfl
  | bin op l r ihl ihr =>
    intro k d
    rw [compile]
    rw [List.append_assoc, List.append_assoc]
    rw [ihl, ihr]
    rfl

/-- `compile` unfolded on a binary node. -/
theorem compile_bin_append (op : Operator) (l r : AExp) :
    compile l ++ compile r ++ [.Binary op] = compile (.bin op l r) := rfl

/-- Every successful token-level parse emits the postfix rendering of some
abstract syntax tree (the loops preserve this for their accumulator). -/
theorem tok_shape : ∀ f : Nat,
    (∀ ts es ts', tok_add_sub f ts = .ok (es, ts') → ∃ a, es = compile a)
  ∧ (∀ es0 ts es ts', tok_add_sub_aux f es0 ts = .ok (es, ts') →
      (∃ a0, es0 = compile a0) → ∃ a, es = compile a)
  ∧ (∀ ts es ts', tok_mul_div f ts = .ok (es, ts') → ∃ a, es = compile a)
  ∧ (∀ es0 ts es ts', tok_mul_div_aux f es0 ts = .ok (es, ts') →
      (∃ a0, es0 = compile a0) → ∃ a, es = compile a)
  ∧ (∀ ts es ts', tok_primary f ts = .ok (es, ts') → ∃ a, es = compile a) := by
  intro f
  induction f with
  | zero =>
    refine ⟨fun ts es ts' h => absurd h (by simp [tok_add_sub]),
      fun es0 ts es ts' h => absurd h (by simp [tok_add_sub_aux]),
      fun ts es ts' h => absurd h (by simp [tok_mul_div]),
      fun es0 ts es ts' h => absurd h (by simp [tok_mul_div_aux]),
      fun ts es ts' h => absurd h (by simp [tok_primary])⟩
  | succ f ih =>
    obtain ⟨ih_add, ih_addaux, ih_mul, ih_mulaux, ih_prim⟩ := ih
    have goal_prim : ∀ ts es ts', tok_primary (f + 1) ts = .ok (es, ts') → ∃ a, es = compile a := by
      intro ts es ts' h
      match ts, h with
      | .num ds :: ts1, h =>
        rw [tok_primary] at h
        by_cases hle : digitsToNat ds ≤ i64MaxNat
        · rw [if_pos hle] at h
          simp only [PResult.ok.injEq, Prod.mk.injEq] at h
          exact ⟨.num ((digitsToNat ds : Nat) : Int), h.1.symm⟩
        · rw [if_neg hle] at h
          exact absurd h (by simp)
      | .sym c :: ts1, h =>
        rw [tok_primary] at h
        by_cases hc : c = '('
        · rw [if_pos hc] at h
          cases hin : tok_add_sub f ts1 with
          | ofl => rw [hin] at h; exact absurd h (by simp)
          | err e => rw [hin] at h; exact absurd h (by simp)
          | ok p =>
            obtain ⟨es1, ts2⟩ := p
            rw [hin] at h
            match ts2, hin, h with
            | [], hin, h =>
              have h' : (PResult.err ErrClass.expectedCloseParen :
                  PResult ErrClass (List Expression × List Tok)) = .ok (es, ts') := h
              exact absurd h' (by simp)
            | .num ds2 :: ts3, hin, h =>
              have h' : (PResult.err ErrClass.expectedCloseParen :
                  PResult ErrClass (List Expression × List Tok)) = .ok (es, ts') := h
              exact absurd h' (by simp)
            | .sym c2 :: ts3, hin, h =>
              have h' : (if c2 = ')' then PResult.ok (es1, ts3)
                  else PResult.err ErrClass.expectedCloseParen) = .ok (es, ts') := h
              by_cases hc2 : c2 = ')'
              · rw [if_pos hc2] at h'
                simp only [PResult.ok.injEq, Prod.mk.injEq] at h'
                obtain ⟨a, ha⟩ := ih_add ts1 es1 (.sym c2 :: ts3) hin
                exact ⟨a, h'.1 ▸ ha⟩
              · rw [if_neg hc2] at h'
                exact absurd h' (by simp)
        · rw [if_neg hc] at h
          exact absurd h (by simp)
    have goal_mulaux : ∀ es0 ts es ts', tok_mul_div_aux (f + 1) es0 ts = .ok (es, ts') →
        (∃ a0, es0 = compile a0) → ∃ a, es = compile a := by
      intro es0 ts es ts' h h0
      match ts, h with
      | [], h =>
        have h' : (PResult.ok (es0, ([] : List Tok)) :
            PResult ErrClass (List Expression × List Tok)) = .ok (es, ts') := h
        simp only [PResult.ok.injEq, Prod.mk.injEq] at h'
        exact h'.1 ▸ h0
      | .num ds :: ts1, h =>
        have h' : (PResult.ok (es0, Tok.num ds :: ts1) :
            PResult ErrClass (List Expression × List Tok)) = .ok (es, ts') := h
        simp only [PResult.ok.injEq, Prod.mk.injEq] at h'
        exact h'.1 ▸ h0
      | .sym c :: ts1, h =>
        rw [tok_mul_div_aux] at h
        obtain ⟨a0, ha0⟩ := h0
        by_cases h1 : c = '*'
        · rw [if_pos h1] at h
          cases hp : tok_primary f ts1 with
          | ofl => rw [hp] at h; exact absurd h (by simp)
          | err e => rw [hp] at h; exact absurd h (by simp)
          | ok p =>
            obtain ⟨es2, ts2⟩ := p
            rw [hp] at h
            obtain ⟨a2, ha2⟩ := ih_prim ts1 es2 ts2 hp
            exact ih_mulaux _ ts2 es ts' h
              ⟨.bin .Multiply a0 a2, by rw [← compile_bin_append, ha0, ha2]⟩
        · by_cases h2 : c = '/'
          · rw [if_neg h1, if_pos h2] at h
            cases hp : tok_primary f ts1 with
            | ofl => rw [hp] at h; exact absurd h (by simp)
            | err e => rw [hp] at h; exact absurd h (by simp)
            | ok p =>
              obtain ⟨es2, ts2⟩ := p
              rw [hp] at h
              obtain ⟨a2, ha2⟩ := ih_prim ts1 es2 ts2 hp
              exact ih_mulaux _ ts2 es ts' h
                ⟨.bin .Divide a0 a2, by rw [← compile_bin_append, ha0, ha2]⟩
          · rw [if_neg h1, if_neg h2] at h
            simp only [PResult.ok.injEq, Prod.mk.injEq] at h
            exact ⟨a0, h.1 ▸ ha0⟩
    have goal_mul : ∀ ts es ts', tok_mul_div (f + 1) ts = .ok (es, ts') → ∃ a, es = compile a := by
      intro ts es ts' h
      rw [tok_mul_div] at h
      cases hp : tok_primary f ts with
      | ofl => rw [hp] at h; exact absurd h (by simp)
      | err e => rw [hp] at h; exact absurd h (by simp)
      | ok p =>
        obtain ⟨es1, ts1⟩ := p
        rw [hp] at h
        exact ih_mulaux es1 ts1 es ts' (by exact h) (ih_prim ts es1 ts1 hp)
    have goal_addaux : ∀ es0 ts es ts', tok_add_sub_aux (f + 1) es0 ts = .ok (es, ts') →
        (∃ a0, es0 = compile a0) → ∃ a, es = compile a := by
      intro es0 ts es ts' h h0
      match ts, h with
      | [], h =>
        have h' : (PResult.ok (es0, ([] : List Tok)) :
            PResult ErrClass (List Expression × List Tok)) = .ok (es, ts') := h
        simp only [PResult.ok.injEq, Prod.mk.injEq] at h'
        exact h'.1 ▸ h0
      | .num ds :: ts1, h =>
        have h' : (PResult.ok (es0, Tok.num ds :: ts1) :
            PResult ErrClass (List Expression × List Tok)) = .ok (es, ts') := h
        simp only [PResult.ok.injEq, Prod.mk.injEq] at h'
        exact h'.1 ▸ h0
      | .sym c :: ts1, h =>
        rw [tok_add_sub_aux] at h
        obtain ⟨a0, ha0⟩ := h0
        by_cases h1 : c = '+'
        · rw [if_pos h1] at h
          cases hp : tok_mul_div f ts1 with
          | ofl => rw [hp] at h; exact absurd h (by simp)
          | err e => rw [hp] at h; exact absurd h (by simp)
          | ok p =>
            obtain ⟨es2, ts2⟩ := p
            rw [hp] at h
            obtain ⟨a2, ha2⟩ := ih_mul ts1 es2 ts2 hp
            exact ih_addaux _ ts2 es ts' h
              ⟨.bin .Add a0 a2, by rw [← compile_bin_append, ha0, ha2]⟩
        · by_cases h2 : c = '-'
          · rw [if_neg h1, if_pos h2] at h
            cases hp : tok_mul_div f ts1 with
            | ofl => rw [hp] at h; exact absurd h (by simp)
            | err e => rw [hp] at h; exact absurd h (by simp)
            | ok p =>
              obtain ⟨es2, ts2⟩ := p
              rw [hp] at h
              obtain ⟨a2, ha2⟩ := ih_mul ts1 es2 ts2 hp
              exact ih_addaux _ ts2 es ts' h
                ⟨.bin .Subtract a0 a2, by rw [← compile_bin_append, ha0, ha2]⟩
          · rw [if_neg h1, if_neg h2] at h
            simp only [PResult.ok.injEq, Prod.mk.injEq] at h
            exact ⟨a0, h.1 ▸ ha0⟩
    have goal_add : ∀ ts es ts', tok_add_sub (f + 1) ts = .ok (es, ts') → ∃ a, es = compile a := by
      intro ts es ts' h
      rw [tok_add_sub] at h
      cases hp : tok_mul_div f ts with
      | ofl => rw [hp] at h; exact absurd h (by simp)
      | err e => rw [hp] at h; exact absurd h (by simp)
      | ok p =>
        obtain ⟨es1, ts1⟩ := p
        rw [hp] at h
        exact ih_addaux es1 ts1 es ts' (by exact h) (ih_mul ts es1 ts1 hp)
    exact ⟨goal_add, goal_addaux, goal_mul, goal_mulaux, goal_prim⟩

/-- Every successful `parse_input` output is the postfix rendering of some
abstract syntax tree. -/
theorem parse_input_ok_shape {s : List Char} {es : List Expression}
    (h : parse_input s = .ok es) : ∃ a, es = compile a := by
  rw [parse_input] at h
  cases hp : parse_add_sub (parseFuel s) s with
  | ok p =>
    obtain ⟨es1, remain⟩ := p
    rw [hp] at h
    have h2 : (if rustTrim remain = [] then PResult.ok es1
        else PResult.err (ParseErr.trailingInput remain)) = PResult.ok es := h
    by_cases ht : rustTrim remain = []
    · rw [if_pos ht] at h2
      simp only [PResult.ok.injEq] at h2
      have hl := (lockstep (parseFuel s)).1 s
      rw [hp, liftInner_ok] at hl
      exact h2 ▸ (tok_shape (parseFuel s)).1 (tokenize s) es1 (tokenize remain) hl.symm
    · rw [if_neg ht] at h2
      exact absurd h2 (by simp)
  | err e => rw [hp] at h; exact absurd h (by simp)
  | ofl => rw [hp] at h; exact absurd h (by simp)

/-- Refinement of the specification parser by the implementation, at the
token level: whenever the grammar derives a tree whose literals all fit in
`i64`, the token-level parser succeeds and returns exactly the postfix
rendering of that tree, with the same remaining tokens. -/
theorem ast_to_tok : ∀ f : Nat,
    (∀ ts a ts', ast_add_sub f ts = some (a, ts') → litsFit a = true →
      tok_add_sub f ts = .ok (compile a, ts'))
  ∧ (∀ acc ts a ts', ast_add_sub_aux f acc ts = some (a, ts') → litsFit a = true →
      litsFit acc = true ∧ tok_add_sub_aux f (compile acc) ts = .ok (compile a, ts'))
  ∧ (∀ ts a ts', ast_mul_div f ts = some (a, ts') → litsFit a = true →
      tok_mul_div f ts = .ok (compile a, ts'))
  ∧ (∀ acc ts a ts', ast_mul_div_aux f acc ts = some (a, ts') → litsFit a = true →
      litsFit acc = true ∧ tok_mul_div_aux f (compile acc) ts = .ok (compile a, ts'))
  ∧ (∀ ts a ts', ast_primary f ts = some (a, ts') → litsFit a = true →
      tok_primary f ts = .ok (compile a, ts')) := by
  intro f
  induction f with
  | zero =>
    refine ⟨fun ts a ts' h => absurd h (by simp [ast_add_sub]),
      fun acc ts a ts' h => absurd h (by simp [ast_add_sub_aux]),
      fun ts a ts' h => absurd h (by simp [ast_mul_div]),
      fun acc ts a ts' h => absurd h (by simp [ast_mul_div_aux]),
      fun ts a ts' h => absurd h (by simp [ast_primary])⟩
  | succ f ih =>
    obtain ⟨ih_add, ih_addaux, ih_mul, ih_mulaux, ih_prim⟩ := ih
    have goal_prim : ∀ ts a ts', ast_primary (f + 1) ts = some (a, ts') → litsFit a = true →
        tok_primary (f + 1) ts = .ok (compile a, ts') := by
      intro ts a ts' h hfit
      match ts, h with
      | [], h =>
        have h' : (none : Option (AExp × List Tok)) = some (a, ts') := h
        exact absurd h' (by simp)
      | .num ds :: ts1, h =>
        have h' : some (AExp.num ((digitsToNat ds : Nat) : Int), ts1) = some (a, ts') := h
        simp only [Option.some.injEq, Prod.mk.injEq] at h'
        obtain ⟨ha, hts⟩ := h'
        subst ha
        subst hts
        have hle : digitsToNat ds ≤ i64MaxNat := by
          rw [litsFit] at hfit
          simp only [Bool.and_eq_true, decide_eq_true_eq] at hfit
          exact_mod_cast hfit.2
        rw [tok_primary, if_pos hle]
        rfl
      | .sym c :: ts1, h =>
        rw [ast_primary] at h
        by_cases hc : c = '('
        · rw [if_pos hc] at h
          rw [tok_primary, if_pos hc]
          cases ham : ast_add_sub f ts1 with
          | none => rw [ham] at h; exact absurd h (by simp)
          | some p =>
            obtain ⟨a1, ts2⟩ := p
            rw [ham] at h
            match ts2, ham, h with
            | [], ham, h =>
              have h' : (none : Option (AExp × List Tok)) = some (a, ts') := h
              exact absurd h' (by simp)
            | .num ds2 :: ts3, ham, h =>
              have h' : (none : Option (AExp × List Tok)) = some (a, ts') := h
              exact absurd h' (by simp)
            | .sym c2 :: ts3, ham, h =>
              have h' : (if c2 = ')' then some (a1, ts3) else none) = some (a, ts') := h
              by_cases hc2 : c2 = ')'
              · rw [if_pos hc2] at h'
                simp only [Option.some.injEq, Prod.mk.injEq] at h'
                obtain ⟨ha, hts⟩ := h'
                rw [ih_add ts1 a1 (.sym c2 :: ts3) ham (by rw [ha]; exact hfit)]
                try dsimp only
                rw [if_pos hc2, ha, hts]
              · rw [if_neg hc2] at h'
                exact absurd h' (by simp)
        · rw [if_neg hc] at h
          exact absurd h (by simp)
    have goal_mulaux : ∀ acc ts a ts', ast_mul_div_aux (f + 1) acc ts = some (a, ts') →
        litsFit a = true →
        litsFit acc = true ∧ tok_mul_div_aux (f + 1) (compile acc) ts = .ok (compile a, ts') := by
      intro acc ts a ts' h hfit
      match ts, h with
      | [], h =>
        have h' : some (acc, ([] : List Tok)) = some (a, ts') := h
        simp only [Option.some.injEq, Prod.mk.injEq] at h'
        obtain ⟨ha, hts⟩ := h'
        subst ha
        subst hts
        exact ⟨hfit, rfl⟩
      | .num ds :: ts1, h =>
        have h' : some (acc, Tok.num ds :: ts1) = some (a, ts') := h
        simp only [Option.some.injEq, Prod.mk.injEq] at h'
        obtain ⟨ha, hts⟩ := h'
        subst ha
        subst hts
        exact ⟨hfit, rfl⟩
      | .sym c :: ts1, h =>
        rw [ast_mul_div_aux] at h
        by_cases h1 : c = '*'
        · rw [if_pos h1] at h
          cases hap : ast_primary f ts1 with
          | none => rw [hap] at h; exact absurd h (by simp)
          | some p =>
            obtain ⟨b, ts2⟩ := p
            rw [hap] at h
            have hrec := ih_mulaux (.bin .Multiply acc b) ts2 a ts' (by exact h) hfit
            have hsplit : litsFit acc = true ∧ litsFit b = true := by
              have := hrec.1
              rw [litsFit] at this
              simpa [Bool.and_eq_true] using this
            refine ⟨hsplit.1, ?_⟩
            rw [tok_mul_div_aux, if_pos h1, ih_prim ts1 b ts2 hap hsplit.2]
            exact hrec.2
        · by_cases h2 : c = '/'
          · rw [if_neg h1, if_pos h2] at h
            cases hap : ast_primary f ts1 with
            | none => rw [hap] at h; exact absurd h (by simp)
            | some p =>
              obtain ⟨b, ts2⟩ := p
              rw [hap] at h
              have hrec := ih_mulaux (.bin .Divide acc b) ts2 a ts' (by exact h) hfit
              have hsplit : litsFit acc = true ∧ litsFit b = true := by
                have := hrec.1
                rw [litsFit] at this
                simpa [Bool.and_eq_true] using this
              refine ⟨hsplit.1, ?_⟩
              rw [tok_mul_div_aux, if_neg h1, if_pos h2, ih_prim ts1 b ts2 hap hsplit.2]
              exact hrec.2
          · rw [if_neg h1, if_neg h2] at h
            simp only [Option.some.injEq, Prod.mk.injEq] at h
            obtain ⟨ha, hts⟩ := h
            subst ha
            subst hts
            refine ⟨hfit, ?_⟩
            rw [tok_mul_div_aux, if_neg h1, if_neg h2]
    have goal_mul : ∀ ts a ts', ast_mul_div (f + 1) ts = some (a, ts') → litsFit a = true →
        tok_mul_div (f + 1) ts = .ok (compile a, ts') := by
      intro ts a ts' h hfit
      rw [ast_mul_div] at h
      cases hap : ast_primary f ts with
      | none => rw [hap] at h; exact absurd h (by simp)
      | some p =>
        obtain ⟨a0, ts1⟩ := p
        rw [hap] at h
        have hrec := ih_mulaux a0 ts1 a ts' (by exact h) hfit
        rw [tok_mul_div, ih_prim ts a0 ts1 hap hrec.1]
        exact hrec.2
    have goal_addaux : ∀ acc ts a ts', ast_add_sub_aux (f + 1) acc ts = some (a, ts') →
        litsFit a = true →
        litsFit acc = true ∧ tok_add_sub_aux (f + 1) (compile acc) ts = .ok (compile a, ts') := by
      intro acc ts a ts' h hfit
      match ts, h with
      | [], h =>
        have h' : some (acc, ([] : List Tok)) = some (a, ts') := h
        simp only [Option.some.injEq, Prod.mk.injEq] at h'
        obtain ⟨ha, hts⟩ := h'
        subst ha
        subst hts
        exact ⟨hfit, rfl⟩
      | .num ds :: ts1, h =>
        have h' : some (acc, Tok.num ds :: ts1) = some (a, ts') := h
        simp only [Option.some.injEq, Prod.mk.injEq] at h'
        obtain ⟨ha, hts⟩ := h'
        subst ha
        subst hts
        exact ⟨hfit, rfl⟩
      | .sym c :: ts1, h =>
        rw [ast_add_sub_aux] at h
        by_cases h1 : c = '+'
        · rw [if_pos h1] at h
          cases hap : ast_mul_div f ts1 with
          | none => rw [hap] at h; exact absurd h (by simp)
          | some p =>
            obtain ⟨b, ts2⟩ := p
            rw [hap] at h
            have hrec := ih_addaux (.bin .Add acc b) ts2 a ts' (by exact h) hfit
            have hsplit : litsFit acc = true ∧ litsFit b = true := by
              have := hrec.1
              rw [litsFit] at this
              simpa [Bool.and_eq_true] using this
            refine ⟨hsplit.1, ?_⟩
            rw [tok_add_sub_aux, if_pos h1, ih_mul ts1 b ts2 hap hsplit.2]
            exact hrec.2
        · by_cases h2 : c = '-'
          · rw [if_neg h1, if_pos h2] at h
            cases hap : ast_mul_div f ts1 with
            | none => rw [hap] at h; exact absurd h (by simp)
            | some p =>
              obtain ⟨b, ts2⟩ := p
              rw [hap] at h
              have hrec := ih_addaux (.bin .Subtract acc b) ts2 a ts' (by exact h) hfit
              have hsplit : litsFit acc = true ∧ litsFit b = true := by
                have := hrec.1
                rw [litsFit] at this
                simpa [Bool.and_eq_true] using this
              refine ⟨hsplit.1, ?_⟩
              rw [tok_add_sub_aux, if_neg h1, if_pos h2, ih_mul ts1 b ts2 hap hsplit.2]
              exact hrec.2
          · rw [if_neg h1, if_neg h2] at h
            simp only [Option.some.injEq, Prod.mk.injEq] at h
            obtain ⟨ha, hts⟩ := h
            subst ha
            subst hts
            refine ⟨hfit, ?_⟩
            rw [tok_add_sub_aux, if_neg h1, if_neg h2]
    have goal_add : ∀ ts a ts', ast_add_sub (f + 1) ts = some (a, ts') → litsFit a = true →
        tok_add_sub (f + 1) ts = .ok (compile a, ts') := by
      intro ts a ts' h hfit
      rw [ast_add_sub] at h
      cases hap : ast_mul_div f ts with
      | none => rw [hap] at h; exact absurd h (by simp)
      | some p =>
        obtain ⟨a0, ts1⟩ := p
        rw [hap] at h
        have hrec := ih_addaux a0 ts1 a ts' (by exact h) hfit
        rw [tok_add_sub, ih_mul ts a0 ts1 hap hrec.1]
        exact hrec.2
    exact ⟨goal_add, goal_addaux, goal_mul, goal_mulaux, goal_prim⟩

/-- Inversion of `liftInner` on success. -/
theorem liftInner_eq_ok {x : PResult ParseErr (List Expression × List Char)}
    {es : List Expression} {ts : List Tok} (h : liftInner x = .ok (es, ts)) :
    ∃ r, x = .ok (es, r) ∧ tokenize r = ts := by
  match x, h with
  | .ok (es0, r), h =>
    rw [liftInner_ok] at h
    simp only [PResult.ok.injEq, Prod.mk.injEq] at h
    exact ⟨r, by rw [h.1], h.2⟩

/-- The receive loop only fails with `Result::Err` strings (channel closed or
VM death), never with a panic. -/
theorem awaitReply_error_shape : ∀ (q : List DebuggeePacket) (e : SendErr)
    (q' : List DebuggeePacket), awaitReply q = (.error e, q') → ∃ m, e = .err m := by
  intro q
  induction q with
  | nil =>
    intro e q' h
    rw [awaitReply] at h
    simp only [Prod.mk.injEq, Except.error.injEq] at h
    exact ⟨"Channel closed", h.1.symm⟩
  | cons p rest ih =>
    intro e q' h
    match p, h with
    | .eventComposite evs, h =>
      rw [awaitReply] at h
      by_cases hd : evs.any isVmDeath
      · rw [if_pos hd] at h
        simp only [Prod.mk.injEq, Except.error.injEq] at h
        exact ⟨"VM DEATH", h.1.symm⟩
      · rw [if_neg hd] at h
        exact ih e q' h
    | .virtualMachineIDSizes, h => exact absurd h (by rw [awaitReply] <;> simp)
    | .virtualMachineAllThreads ths, h => exact absurd h (by rw [awaitReply] <;> simp)
    | .virtualMachineClassesBySignature cs, h => exact absurd h (by rw [awaitReply] <;> simp)
    | .referenceTypeMethods ms, h => exact absurd h (by rw [awaitReply] <;> simp)
    | .referenceTypeFields fs, h => exact absurd h (by rw [awaitReply] <;> simp)
    | .referenceTypeGetValues vs, h => exact absurd h (by rw [awaitReply] <;> simp)
    | .virtualMachineCreateString so, h => exact absurd h (by rw [awaitReply] <;> simp)
    | .classTypeInvokeMethod rv ex, h => exact absurd h (by rw [awaitReply] <;> simp)
    | .objectReferenceInvokeMethod rv ex, h => exact absurd h (by rw [awaitReply] <;> simp)
    | .arrayTypeNewInstance na, h => exact absurd h (by rw [awaitReply] <;> simp)
    | .arrayReferenceSetValues, h => exact absurd h (by rw [awaitReply] <;> simp)
    | .stringReferenceValue sv, h => exact absurd h (by rw [awaitReply] <;> simp)
    | .otherReply, h => exact absurd h (by rw [awaitReply] <;> simp)

/-- `send_and_receive` only fails with `Result::Err` strings. -/
theorem send_and_receive_error_shape {st : SendHandlerState} {p : DebuggerPacket}
    {e : SendErr} {st' : SendHandlerState}
    (h : send_and_receive st p = (.error e, st')) : ∃ m, e = .err m := by
  rw [send_and_receive] at h
  dsimp only at h
  rcases haw : awaitReply st.queue with ⟨r, q⟩
  rw [haw] at h
  match r, h with
  | .error e0, h =>
    simp only [Prod.mk.injEq, Except.error.injEq] at h
    exact h.1 ▸ awaitReply_error_shape _ e0 q haw
  | .ok pk, h =>
    simp at h

/-- `find_class` never fails with the `Stack underflow` panic. -/
theorem find_class_no_underflow {st : SendHandlerState} {sig : String} {e : SendErr}
    {st' : SendHandlerState} (h : find_class st sig = (.error e, st')) :
    e ≠ .panicked "Stack underflow" := by
  rw [find_class] at h
  split at h
  · split at h
    · simp only [Prod.mk.injEq, Except.error.injEq] at h
      rw [← h.1]
      decide
    · simp at h
  · simp only [Prod.mk.injEq, Except.error.injEq] at h
    rw [← h.1]
    decide
  · rename_i e0 st1 heq
    simp only [Prod.mk.injEq, Except.error.injEq] at h
    obtain ⟨m, hm⟩ := send_and_receive_error_shape heq
    rw [← h.1, hm]
    simp


/-- `find_method` never fails with the `Stack underflow` panic. -/
theorem find_method_no_underflow {st : SendHandlerState} {cid : Nat} {n s : String}
    {e : SendErr} {st' : SendHandlerState} (h : find_method st cid n s = (.error e, st')) :
    e ≠ .panicked "Stack underflow" := by
  rw [find_method] at h
  split at h
  · split at h
    · simp at h
    · simp only [Prod.mk.injEq, Except.error.injEq] at h
      rw [← h.1]
      simp
  · simp only [Prod.mk.injEq, Except.error.injEq] at h
    rw [← h.1]
    decide
  · rename_i e0 st1 heq
    simp only [Prod.mk.injEq, Except.error.injEq] at h
    obtain ⟨m, hm⟩ := send_and_receive_error_shape heq
    rw [← h.1, hm]
    simp

/-- `invoke_class_method_return_object` never fails with the `Stack
underflow` panic. -/
theorem invoke_class_no_underflow {st : SendHandlerState} {clazz mid th : Nat}
    {args : List JVal} {e : SendErr} {st' : SendHandlerState}
    (h : invoke_class_method_return_object st clazz mid th args = (.error e, st')) :
    e ≠ .panicked "Stack underflow" := by
  rw [invoke_class_method_return_object] at h
  split at h
  · split at h
    · simp at h
    · simp at h
    · simp only [Prod.mk.injEq, Except.error.injEq] at h
      rw [← h.1]
      simp
  · simp only [Prod.mk.injEq, Except.error.injEq] at h
    rw [← h.1]
    decide
  · rename_i e0 st1 heq
    simp only [Prod.mk.injEq, Except.error.injEq] at h
    obtain ⟨m, hm⟩ := send_and_receive_error_shape heq
    rw [← h.1, hm]
    simp

/-- `get_exception_string` never fails with the `Stack underflow` panic. -/
theorem get_exception_string_no_underflow {st : SendHandlerState} {exc th : Nat}
    {e : SendErr} {st' : SendHandlerState}
    (h : get_exception_string st exc th = (.error e, st')) :
    e ≠ .panicked "Stack underflow" := by
  rw [get_exception_string] at h
  split at h
  · split at h
    · split at h
      · split at h
        · simp at h
        · simp only [Prod.mk.injEq, Except.error.injEq] at h
          rw [← h.1]
          decide
        · rename_i e0 st4 heq
          simp only [Prod.mk.injEq, Except.error.injEq] at h
          obtain ⟨m, hm⟩ := send_and_receive_error_shape heq
          rw [← h.1, hm]
          simp
      · simp only [Prod.mk.injEq, Except.error.injEq] at h
        rw [← h.1]
        decide
      · rename_i e0 st3 heq
        simp only [Prod.mk.injEq, Except.error.injEq] at h
        obtain ⟨m, hm⟩ := send_and_receive_error_shape heq
        rw [← h.1, hm]
        simp
    · rename_i e0 st2 heq
      simp only [Prod.mk.injEq, Except.error.injEq] at h
      rw [← h.1]
      exact find_method_no_underflow heq
  · rename_i e0 st1 heq
    simp only [Prod.mk.injEq, Except.error.injEq] at h
    rw [← h.1]
    exact find_class_no_underflow heq

/-- `invoke_object_method_return_object` never fails with the `Stack
underflow` panic. -/
theorem invoke_object_no_underflow {st : SendHandlerState} {clazz obj mid th : Nat}
    {args : List JVal} {e : SendErr} {st' : SendHandlerState}
    (h : invoke_object_method_return_object st clazz obj mid th args = (.error e, st')) :
    e ≠ .panicked "Stack underflow" := by
  rw [invoke_object_method_return_object] at h
  split at h
  · split at h
    · split at h
      · simp only [Prod.mk.injEq, Except.error.injEq] at h
        rw [← h.1]
        simp
      · rename_i e0 st2 heq
        simp only [Prod.mk.injEq, Except.error.injEq] at h
        rw [← h.1]
        exact get_exception_string_no_underflow heq
    · split at h
      · simp at h
      · simp at h
      · simp at h
      · simp at h
      · simp only [Prod.mk.injEq, Except.error.injEq] at h
        rw [← h.1]
        simp
  · simp only [Prod.mk.injEq, Except.error.injEq] at h
    rw [← h.1]
    decide
  · rename_i e0 st1 heq
    simp only [Prod.mk.injEq, Except.error.injEq] at h
    obtain ⟨m, hm⟩ := send_and_receive_error_shape heq
    rw [← h.1, hm]
    simp

/-- `create_jvm_array_from_jdwpvalues` never fails with the `Stack
underflow` panic. -/
theorem create_jvm_array_no_underflow {st : SendHandlerState} {esig : String}
    {values : List JVal} {e : SendErr} {st' : SendHandlerState}
    (h : create_jvm_array_from_jdwpvalues st esig values = (.error e, st')) :
    e ≠ .panicked "Stack underflow" := by
  rw [create_jvm_array_from_jdwpvalues] at h
  split at h
  · split at h
    · split at h
      · simp at h
      · rename_i e0 st3 heq
        simp only [Prod.mk.injEq, Except.error.injEq] at h
        obtain ⟨m, hm⟩ := send_and_receive_error_shape heq
        rw [← h.1, hm]
        simp
    · simp only [Prod.mk.injEq, Except.error.injEq] at h
      rw [← h.1]
      decide
    · rename_i e0 st2 heq
      simp only [Prod.mk.injEq, Except.error.injEq] at h
      obtain ⟨m, hm⟩ := send_and_receive_error_shape heq
      rw [← h.1, hm]
      simp
  · rename_i e0 st1 heq
    simp only [Prod.mk.injEq, Except.error.injEq] at h
    rw [← h.1]
    exact find_class_no_underflow heq

/-- The `Number` arm of the evaluator never fails with the `Stack underflow`
panic. -/
theorem eval_number_no_underflow {env : CalcEnv} {n : Int} {st : SendHandlerState}
    {e : CalcErr} {st' : SendHandlerState} (h : eval_number env n st = (.error e, st')) :
    e ≠ .send (.panicked "Stack underflow") := by
  rw [eval_number] at h
  split at h
  · split at h
    · split at h
      · simp at h
      · rename_i e0 st3 heq
        simp only [Prod.mk.injEq, Except.error.injEq] at h
        rw [← h.1]
        simp only [ne_eq, CalcErr.send.injEq]
        exact invoke_object_no_underflow heq
    · rename_i e0 st2 heq
      simp only [Prod.mk.injEq, Except.error.injEq] at h
      rw [← h.1]
      simp only [ne_eq, CalcErr.send.injEq]
      exact create_jvm_array_no_underflow heq
  · rename_i e0 st1 heq
    simp only [Prod.mk.injEq, Except.error.injEq] at h
    rw [← h.1]
    simp only [ne_eq, CalcErr.send.injEq]
    exact invoke_class_no_underflow heq

/-- The `Binary` arm of the evaluator (after its pops) never fails with the
`Stack underflow` panic. -/
theorem eval_binary_no_underflow {env : CalcEnv} {op : Operator} {a b : Nat}
    {st : SendHandlerState} {e : CalcErr} {st' : SendHandlerState}
    (h : eval_binary env op a b st = (.error e, st')) :
    e ≠ .send (.panicked "Stack underflow") := by
  rw [eval_binary.eq_def] at h
  dsimp only at h
  split at h
  · split at h
    · simp at h
    · rename_i e0 st2 heq
      simp only [Prod.mk.injEq, Except.error.injEq] at h
      rw [← h.1]
      simp only [ne_eq, CalcErr.send.injEq]
      exact invoke_object_no_underflow heq
  · rename_i e0 st1 heq
    simp only [Prod.mk.injEq, Except.error.injEq] at h
    rw [← h.1]
    simp only [ne_eq, CalcErr.send.injEq]
    exact create_jvm_array_no_underflow heq

/-- Depth invariant of the evaluator loop: if the depth shadow accepts the
instruction list from the current stack depth, the loop never fails with the
`Stack underflow` panic, and a successful run leaves exactly the predicted
number of handles. -/
theorem eval_instrs_invariant (env : CalcEnv) : ∀ (es : List Expression) (σ : List Nat)
    (st : SendHandlerState) (n : Nat), depthRun es σ.length = some n →
    (∀ e st', eval_instrs env es σ st = (.error e, st') → e ≠ .send (.panicked "Stack underflow"))
    ∧ (∀ stack' st', eval_instrs env es σ st = (.ok stack', st') → stack'.length = n) := by
  intro es
  induction es with
  | nil =>
    intro σ st n hd
    rw [depthRun] at hd
    simp only [Option.some.injEq] at hd
    constructor
    · intro e st' h
      rw [eval_instrs] at h
      simp at h
    · intro stack' st' h
      rw [eval_instrs] at h
      simp only [Prod.mk.injEq, Except.ok.injEq] at h
      rw [← h.1, ← hd]
  | cons i rest ih =>
    intro σ st n hd
    match i with
    | .Number m =>
      rw [depthRun] at hd
      rw [eval_instrs]
      rcases hev : eval_number env m st with ⟨r, st1⟩
      match r, hev with
      | .ok hobj, hev =>
        have hrec := ih (hobj :: σ) st1 n (by simpa using hd)
        constructor
        · intro e st' h
          exact hrec.1 e st' h
        · intro stack' st' h
          exact hrec.2 stack' st' h
      | .error e0, hev =>
        constructor
        · intro e st' h
          have h' : ((Except.error e0 : Except CalcErr (List Nat)), st1) = (.error e, st') := h
          simp only [Prod.mk.injEq, Except.error.injEq] at h'
          exact h'.1 ▸ eval_number_no_underflow hev
        · intro stack' st' h
          have h' : ((Except.error e0 : Except CalcErr (List Nat)), st1) = (.ok stack', st') := h
          simp at h'
    | .Binary op =>
      match σ, hd with
      | [], hd =>
        have hd' : (none : Option Nat) = some n := hd
        simp at hd'
      | [x], hd =>
        have hd' : (none : Option Nat) = some n := hd
        simp at hd'
      | b :: a :: σ', hd =>
        have hd2 : depthRun rest (σ'.length + 1) = some n := hd
        rw [eval_instrs]
        rcases hev : eval_binary env op a b st with ⟨r, st1⟩
        match r, hev with
        | .ok hobj, hev =>
          have hrec := ih (hobj :: σ') st1 n hd2
          constructor
          · intro e st' h
            exact hrec.1 e st' h
          · intro stack' st' h
            exact hrec.2 stack' st' h
        | .error e0, hev =>
          constructor
          · intro e st' h
            have h' : ((Except.error e0 : Except CalcErr (List Nat)), st1) = (.error e, st') := h
            simp only [Prod.mk.injEq, Except.error.injEq] at h'
            exact h'.1 ▸ eval_binary_no_underflow hev
          · intro stack' st' h
            have h' : ((Except.error e0 : Except CalcErr (List Nat)), st1) = (.ok stack', st') := h
            simp at h'

/-- A successful match of the method loop is a member matching both name and
signature exactly. -/
theorem find_method_in_some : ∀ (ms : List MethodEntry) (n s : String) (h : Nat),
    find_method_in ms n s = some h → ∃ m ∈ ms, m.name = n ∧ m.signature = s ∧ m.method_id = h := by
  intro ms n s h
  induction ms with
  | nil => intro hh; rw [find_method_in] at hh; simp at hh
  | cons m rest ih =>
    intro hh
    rw [find_method_in] at hh
    by_cases hm : m.name = n ∧ m.signature = s
    · rw [if_pos hm] at hh
      simp only [Option.some.injEq] at hh
      exact ⟨m, by simp, hm.1, hm.2, hh⟩
    · rw [if_neg hm] at hh
      obtain ⟨m', hmem, hp⟩ := ih hh
      exact ⟨m', by simp [hmem], hp⟩

/-- The method loop fails exactly when no declared method matches both
criteria. -/
theorem find_method_in_none_iff : ∀ (ms : List MethodEntry) (n s : String),
    find_method_in ms n s = none ↔ ∀ m ∈ ms, ¬(m.name = n ∧ m.signature = s) := by
  intro ms n s
  induction ms with
  | nil => rw [find_method_in]; simp
  | cons m rest ih =>
    rw [find_method_in]
    by_cases hm : m.name = n ∧ m.signature = s
    · rw [if_pos hm]
      simp [hm]
    · rw [if_neg hm]
      rw [ih]
      simp only [List.mem_cons]
      constructor
      · intro hall m' hm'
        rcases hm' with hm' | hm'
        · rw [hm']; exact hm
        · exact hall m' hm'
      · intro hall m' hm'
        exact hall m' (Or.inr hm')

/-- A successful match of the field loop is a member matching both name and
signature exactly. -/
theorem find_field_in_some : ∀ (fs : List FieldEntry) (n s : String) (h : Nat),
    find_field_in fs n s = some h → ∃ fe ∈ fs, fe.name = n ∧ fe.signature = s ∧ fe.field_id = h := by
  intro fs n s h
  induction fs with
  | nil => intro hh; rw [find_field_in] at hh; simp at hh
  | cons fe rest ih =>
    intro hh
    rw [find_field_in] at hh
    by_cases hm : fe.name = n ∧ fe.signature = s
    · rw [if_pos hm] at hh
      simp only [Option.some.injEq] at hh
      exact ⟨fe, by simp, hm.1, hm.2, hh⟩
    · rw [if_neg hm] at hh
      obtain ⟨m', hmem, hp⟩ := ih hh
      exact ⟨m', by simp [hmem], hp⟩

/-- The field loop fails exactly when no declared field matches both
criteria. -/
theorem find_field_in_none_iff : ∀ (fs : List FieldEntry) (n s : String),
    find_field_in fs n s = none ↔ ∀ fe ∈ fs, ¬(fe.name = n ∧ fe.signature = s) := by
  intro fs n s
  induction fs with
  | nil => rw [find_field_in]; simp
  | cons fe rest ih =>
    rw [find_field_in]
    by_cases hm : fe.name = n ∧ fe.signature = s
    · rw [if_pos hm]
      simp [hm]
    · rw [if_neg hm]
      rw [ih]
      simp only [List.mem_cons]
      constructor
      · intro hall m' hm'
        rcases hm' with hm' | hm'
        · rw [hm']; exact hm
        · exact hall m' hm'
      · intro hall m' hm'
        exact hall m' (Or.inr hm')

/-- A non-event packet at the head of the queue is returned as the reply. -/
theorem awaitReply_reply (p : DebuggeePacket) (hp : isEventPacket p = false)
    (q : List DebuggeePacket) : awaitReply (p :: q) = (.ok p, q) := by
  cases p <;> simp_all [awaitReply, isEventPacket]

/-- `find_method` against a queued declared-methods reply: it issues the
list-methods command and dispatches on the matching loop. -/
theorem find_method_queue {st : SendHandlerState} {cid : Nat} {n s : String}
    {ms : List MethodEntry} {q : List DebuggeePacket}
    (hq : st.queue = .referenceTypeMethods ms :: q) :
    find_method st cid n s =
      ((match find_method_in ms n s with
        | some h => Except.ok h
        | none => Except.error (.err ("Method " ++ n ++ " not found"))),
       { payloads := st.payloads ++ [.referenceTypeMethods cid],
         cmd_id := st.cmd_id + 1, queue := q }) := by
  rw [find_method, send_and_receive]
  dsimp only
  rw [hq, awaitReply_reply (.referenceTypeMethods ms) rfl]
  dsimp only
  clear hq
  cases hfind : find_method_in ms n s with
  | some h => rfl
  | none => rfl

/-- `find_field` against a queued declared-fields reply. -/
theorem find_field_queue {st : SendHandlerState} {cid : Nat} {n s : String}
    {fs : List FieldEntry} {q : List DebuggeePacket}
    (hq : st.queue = .referenceTypeFields fs :: q) :
    find_field st cid n s =
      ((match find_field_in fs n s with
        | some h => Except.ok h
        | none => Except.error (.err ("Field " ++ n ++ " not found"))),
       { payloads := st.payloads ++ [.referenceTypeFields cid],
         cmd_id := st.cmd_id + 1, queue := q }) := by
  rw [find_field, send_and_receive]
  dsimp only
  rw [hq, awaitReply_reply (.referenceTypeFields fs) rfl]
  dsimp only
  clear hq
  cases hfind : find_field_in fs n s with
  | some h => rfl
  | none => rfl

/-- `find_class` against a queued empty classes-by-signature reply: the
lookup panics (`.expect(\"No class found\")`), it does not return an error. -/
theorem find_class_queue_nil {st : SendHandlerState} {sig : String}
    {q : List DebuggeePacket}
    (hq : st.queue = .virtualMachineClassesBySignature [] :: q) :
    find_class st sig = (.error (.panicked "No class found"),
      { payloads := st.payloads ++ [.virtualMachineClassesBySignature sig],
        cmd_id := st.cmd_id + 1, queue := q }) := by
  rw [find_class, send_and_receive]
  dsimp only
  rw [hq, awaitReply_reply (.virtualMachineClassesBySignature []) rfl]

/-- `find_class` against a queued non-empty classes-by-signature reply:
the first match's handle is returned. -/
theorem find_class_queue_cons {st : SendHandlerState} {sig : String} {c : ClassEntry}
    {cs : List ClassEntry} {q : List DebuggeePacket}
    (hq : st.queue = .virtualMachineClassesBySignature (c :: cs) :: q) :
    find_class st sig = (.ok c.type_id,
      { payloads := st.payloads ++ [.virtualMachineClassesBySignature sig],
        cmd_id := st.cmd_id + 1, queue := q }) := by
  rw [find_class, send_and_receive]
  dsimp only
  rw [hq, awaitReply_reply (.virtualMachineClassesBySignature (c :: cs)) rfl]


/-- On parser-produced programs, `calc_expression` can never reach either of
its `Stack underflow` panics, whatever the remote replies are. -/
theorem calc_expression_parse_ok_no_underflow {st : SendHandlerState} {env : CalcEnv}
    {expr : List Char} {es : List Expression} (hp : parse_input expr = .ok es)
    {e : CalcErr} {st' : SendHandlerState}
    (h : calc_expression st env expr = (.error e, st')) :
    e ≠ .send (.panicked "Stack underflow") := by
  obtain ⟨a, ha⟩ := parse_input_ok_shape hp
  have hdepth : depthRun es 0 = some 1 := by
    rw [ha]
    have hc := depthRun_compile a [] 0
    rw [List.append_nil] at hc
    exact hc
  have hinv := eval_instrs_invariant env es [] st 1 hdepth
  rw [calc_expression, hp] at h
  dsimp only at h
  split at h
  · rename_i stack st1 heq
    split at h
    · rename_i rb rest2
      split at h
      · rename_i rso st2 heq2
        split at h
        · simp at h
        · simp only [Prod.mk.injEq, Except.error.injEq] at h
          rw [← h.1]
          decide
        · rename_i e0 st3 heq3
          simp only [Prod.mk.injEq, Except.error.injEq] at h
          obtain ⟨m, hm⟩ := send_and_receive_error_shape heq3
          rw [← h.1, hm]
          simp
      · rename_i e0 st2 heq2
        simp only [Prod.mk.injEq, Except.error.injEq] at h
        rw [← h.1]
        simp only [ne_eq, CalcErr.send.injEq]
        exact invoke_object_no_underflow heq2
    · have hlen := hinv.2 [] st1 heq
      simp at hlen
  · rename_i e0 st1 heq
    simp only [Prod.mk.injEq, Except.error.injEq] at h
    rw [← h.1]
    exact hinv.1 e0 st1 heq

/-! ## Claim theorems -/

/-- C1 counterexample: `"9223372036854775808"` is a valid arithmetic
expression of the grammar (a single `INTEGER`), yet `parse_input` fails,
because the code parses literals with `num_str.parse::<i64>()` and
`9223372036854775808 = i64::MAX + 1` overflows (`"Invalid number"`).  The
claim "for every valid arithmetic expression parse_input succeeds" is
therefore false as stated. -/
theorem c1_counterexample :
    ast_parse "9223372036854775808".toList = some (.num 9223372036854775808)
    ∧ parse_input "9223372036854775808".toList = .err .invalidNumber :=
  ⟨by decide, by decide⟩

/-- C1 (amended): for every input string derived by the grammar
`expr := term (('+'|'-') term)*; term := primary (('*'|'/') primary)*;
primary := INTEGER | '(' expr ')'` (that is, `ast_parse` succeeds with tree
`a`) in which every integer literal fits in `i64`, `parse_input` succeeds and
returns exactly the postfix rendering of `a`; executing that postfix program
on the reference arbitrary-precision stack machine yields a single value
whose decimal string equals that of direct infix evaluation of `a`. -/
theorem c1_parse_correct {s : List Char} {a : AExp}
    (hv : ast_parse s = some a) (hfit : litsFit a = true) :
    parse_input s = .ok (compile a)
    ∧ ∃ v, stackRun (compile a) [] = some [v] ∧ toString v = toString (evalA a) := by
  rw [ast_parse] at hv
  cases hast : ast_add_sub (parseFuel s) (tokenize s) with
  | none => rw [hast] at hv; exact absurd hv (by simp)
  | some p =>
    obtain ⟨a1, ts⟩ := p
    rw [hast] at hv
    have hv' : (if ts = [] then some a1 else none) = some a := hv
    by_cases hts : ts = []
    · rw [if_pos hts] at hv'
      simp only [Option.some.injEq] at hv'
      subst hv'
      subst hts
      have htok := (ast_to_tok (parseFuel s)).1 (tokenize s) a1 [] hast hfit
      have hlock := (lockstep (parseFuel s)).1 s
      rw [htok] at hlock
      obtain ⟨r, hr, hrt⟩ := liftInner_eq_ok hlock
      constructor
      · rw [parse_input, hr]
        dsimp only
        rw [if_pos (rustTrim_eq_nil_iff.mpr (tokenize_eq_nil_iff.mp hrt))]
      · refine ⟨evalA a1, ?_, rfl⟩
        have := stackRun_compile a1 [] []
        rwa [List.append_nil] at this
    · rw [if_neg hts] at hv'
      exact absurd hv' (by simp)

/-- C1 witness: the amended claim at `"3 + 5 * (2 - 8)"`, whose tree is
`3 + (5 * (2 - 8))` and whose value is `-27`. -/
theorem c1_parse_correct_witness :
    parse_input "3 + 5 * (2 - 8)".toList =
      .ok (compile (.bin .Add (.num 3) (.bin .Multiply (.num 5) (.bin .Subtract (.num 2) (.num 8)))))
    ∧ ∃ v, stackRun
        (compile (.bin .Add (.num 3) (.bin .Multiply (.num 5) (.bin .Subtract (.num 2) (.num 8))))) []
        = some [v]
      ∧ toString v = toString (evalA
          (.bin .Add (.num 3) (.bin .Multiply (.num 5) (.bin .Subtract (.num 2) (.num 8))))) :=
  c1_parse_correct (by decide) (by decide)

/-- C2: every instruction sequence returned by a successful `parse_input`
is well formed for the stack machine: the depth shadow accepts it from the
empty stack and ends at depth exactly one; the reference machine ends with
exactly one value; and `calc_expression` can never return the
`"Stack underflow"` panic on it (both `expect("Stack underflow")` sites are
unreachable), for every environment, session state and remote reply queue. -/
theorem c2_stack_invariant {s : List Char} {es : List Expression}
    (hp : parse_input s = .ok es) :
    depthRun es 0 = some 1
    ∧ (∃ v, stackRun es [] = some [v])
    ∧ (∀ (st : SendHandlerState) (env : CalcEnv) (e : CalcErr) (st' : SendHandlerState),
        calc_expression st env s = (.error e, st') →
        e ≠ .send (.panicked "Stack underflow")) := by
  obtain ⟨a, ha⟩ := parse_input_ok_shape hp
  subst ha
  refine ⟨?_, ⟨evalA a, ?_⟩, ?_⟩
  · have := depthRun_compile a [] 0
    rwa [List.append_nil] at this
  · have := stackRun_compile a [] []
    rwa [List.append_nil] at this
  · intro st env e st' h
    exact calc_expression_parse_ok_no_underflow hp h

/-- C2 witness: the invariant at the program parsed from `"1+2"`. -/
theorem c2_stack_invariant_witness :
    depthRun [Expression.Number 1, .Number 2, .Binary .Add] 0 = some 1
    ∧ ∃ v, stackRun [Expression.Number 1, .Number 2, .Binary .Add] [] = some [v] :=
  ⟨(c2_stack_invariant (s := "1+2".toList) (by decide)).1,
   (c2_stack_invariant (s := "1+2".toList) (by decide)).2.1⟩

/-- C3: while `send_and_receive` awaits the reply to the command it just
issued, an asynchronous event notification (`EventComposite`) that does not
contain a VM-death event is discarded and the wait continues on the rest of
the queue; one containing a VM-death event fails the pending command with the
`"VM DEATH"` error; and the first non-event packet is returned to the caller
as the reply.  In every case the command is recorded in the envelope history
and the command id is incremented exactly once. -/
theorem c3_send_and_receive_events :
    (∀ (st : SendHandlerState) (p : DebuggerPacket) (evs : List EventKind)
      (q : List DebuggeePacket),
      st.queue = .eventComposite evs :: q → evs.any isVmDeath = false →
      send_and_receive st p = send_and_receive { st with queue := q } p)
    ∧ (∀ (st : SendHandlerState) (p : DebuggerPacket) (evs : List EventKind)
        (q : List DebuggeePacket),
        st.queue = .eventComposite evs :: q → evs.any isVmDeath = true →
        send_and_receive st p = (.error (.err "VM DEATH"),
          { payloads := st.payloads ++ [p], cmd_id := st.cmd_id + 1, queue := q }))
    ∧ (∀ (st : SendHandlerState) (p : DebuggerPacket) (r : DebuggeePacket)
        (q : List DebuggeePacket),
        st.queue = r :: q → isEventPacket r = false →
        send_and_receive st p = (.ok r,
          { payloads := st.payloads ++ [p], cmd_id := st.cmd_id + 1, queue := q })) := by
  refine ⟨?_, ?_, ?_⟩
  · intro st p evs q hq hd
    rw [send_and_receive, send_and_receive]
    dsimp only
    rw [hq, awaitReply, if_neg (by simp [hd])]
  · intro st p evs q hq hd
    rw [send_and_receive]
    dsimp only
    rw [hq, awaitReply, if_pos hd]
  · intro st p r q hq hr
    rw [send_and_receive]
    dsimp only
    rw [hq, awaitReply_reply r hr]

/-- C3 witness: draining a class-prepare event, failing on a VM-death event,
and returning the first non-event packet, at concrete queues. -/
theorem c3_send_and_receive_events_witness :
    (send_and_receive ⟨[], 0, [.eventComposite [.classPrepare], .virtualMachineIDSizes]⟩
        .virtualMachineIDSizes
      = send_and_receive ⟨[], 0, [.virtualMachineIDSizes]⟩ .virtualMachineIDSizes)
    ∧ (send_and_receive ⟨[], 0, [.eventComposite [.vmDeath]]⟩ .virtualMachineResume
      = (.error (.err "VM DEATH"), ⟨[.virtualMachineResume], 1, []⟩))
    ∧ (send_and_receive ⟨[], 0, [.virtualMachineIDSizes]⟩ .virtualMachineIDSizes
      = (.ok .virtualMachineIDSizes, ⟨[.virtualMachineIDSizes], 1, []⟩)) :=
  ⟨c3_send_and_receive_events.1 _ _ _ _ rfl (by decide),
   c3_send_and_receive_events.2.1 _ _ _ _ rfl (by decide),
   c3_send_and_receive_events.2.2 _ _ _ _ rfl (by decide)⟩

/-- C4: `parse_input "3 + 5 * (2 - 8)"` returns Ok with exactly the postfix
instruction sequence `[Number 3, Number 5, Number 2, Number 8,
Binary Subtract, Binary Multiply, Binary Add]`, in that order. -/
theorem c4_example_parse :
    parse_input "3 + 5 * (2 - 8)".toList =
      .ok [.Number 3, .Number 5, .Number 2, .Number 8,
        .Binary .Subtract, .Binary .Multiply, .Binary .Add] := by
  decide

/-- C5: `parse_input "(1"` fails with the missing-closing-parenthesis error,
`parse_input "1 +"` with the expected-number error, and `parse_input "1 2"`
with the trailing-input error; none of them succeeds. -/
theorem c5_error_cases :
    parse_input "(1".toList = .err .expectedCloseParen
    ∧ parse_input "1 +".toList = .err (.expectedNumber [])
    ∧ parse_input "1 2".toList = .err (.trailingInput [' ', '2']) :=
  ⟨by decide, by decide, by decide⟩
/-- C6 counterexample: at a position where a number is expected, the digit
run `"9223372036854775808"` is non-empty, yet no `Number` instruction is
emitted and the failure is not the expected-number error: the `i64` parse
overflows and `parse_primary` fails with `"Invalid number"`. -/
theorem c6_counterexample :
    "9223372036854775808".toList.takeWhile Char.isDigit ≠ []
    ∧ parse_primary 1 "9223372036854775808".toList = .err .invalidNumber
    ∧ parse_primary 1 "9223372036854775808".toList ≠
        .err (.expectedNumber "9223372036854775808".toList) :=
  ⟨by decide, by decide, by decide⟩

/-- C6 (amended): where a number is expected (the remaining input does not
start, after whitespace, with `(`), the parser consumes exactly the maximal
leading run of ASCII digits; it emits one `Number` instruction for every
non-empty run whose value is at most `i64::MAX`; an empty run fails with the
expected-number error; and a non-empty run whose value exceeds `i64::MAX`
fails with the invalid-number error. -/
theorem c6_number_parsing : ∀ (f : Nat) (s : List Char),
    (s.dropWhile Char.isWhitespace).head? ≠ some '(' →
    (((s.dropWhile Char.isWhitespace).takeWhile Char.isDigit = [] →
      parse_primary (f + 1) s = .err (.expectedNumber (s.dropWhile Char.isWhitespace)))
    ∧ ((s.dropWhile Char.isWhitespace).takeWhile Char.isDigit ≠ [] →
        digitsToNat ((s.dropWhile Char.isWhitespace).takeWhile Char.isDigit) ≤ i64MaxNat →
        parse_primary (f + 1) s =
          .ok ([.Number ((digitsToNat ((s.dropWhile Char.isWhitespace).takeWhile Char.isDigit) : Nat) : Int)],
            (s.dropWhile Char.isWhitespace).dropWhile Char.isDigit))
    ∧ ((s.dropWhile Char.isWhitespace).takeWhile Char.isDigit ≠ [] →
        i64MaxNat < digitsToNat ((s.dropWhile Char.isWhitespace).takeWhile Char.isDigit) →
        parse_primary (f + 1) s = .err .invalidNumber)) := by
  intro f s hnp
  rw [parse_primary]
  cases hd : s.dropWhile Char.isWhitespace with
  | nil =>
    refine ⟨fun _ => rfl, fun hne _ => absurd (by simp) hne, fun hne _ => absurd (by simp) hne⟩
  | cons c rest =>
    rw [hd] at hnp
    have hc : c ≠ '(' := by
      intro hcc
      rw [hcc] at hnp
      exact hnp rfl
    dsimp only
    rw [if_neg hc, parseNumberFrom]
    refine ⟨?_, ?_, ?_⟩
    · intro h0
      rw [if_pos h0]
    · intro hne hle
      rw [if_neg hne]
      try dsimp only
      rw [if_pos hle]
    · intro hne hgt
      rw [if_neg hne]
      try dsimp only
      rw [if_neg (by omega)]

/-- C6 witness: the amended claim at `" 42x"`: the maximal digit run `"42"`
is consumed, `Number 42` is emitted, and `"x"` remains. -/
theorem c6_number_parsing_witness :
    parse_primary 1 " 42x".toList = .ok ([.Number 42], ['x']) :=
  (c6_number_parsing 0 " 42x".toList (by decide)).2.1 (by decide) (by decide)

/-- C7 counterexample: with an empty classes-by-signature result set,
`find_class` does not fail with a recoverable (`Result::Err`) lookup error as
the claim states: it panics (`.first().expect("No class found")`), which is
process-fatal. -/
theorem c7_counterexample :
    (find_class ⟨[], 0, [.virtualMachineClassesBySignature []]⟩ "Ljava/lang/Class;").1
      = .error (.panicked "No class found")
    ∧ ¬∃ m, (find_class ⟨[], 0, [.virtualMachineClassesBySignature []]⟩ "Ljava/lang/Class;").1
        = .error (.err m) := by
  constructor
  · rfl
  · rintro ⟨m, hm⟩
    have h1 : (find_class (⟨[], 0, [.virtualMachineClassesBySignature []]⟩ : SendHandlerState)
        "Ljava/lang/Class;").1 = .error (.panicked "No class found") := rfl
    rw [h1] at hm
    simp at hm

/-- C7 (amended): `find_class` issues a classes-by-signature command
(appending it to the envelope history); when the returned result set is
empty, the call panics with `"No class found"` (a process-fatal `expect`,
not a recoverable error); when it is non-empty, the handle of the first
match is returned. -/
theorem c7_find_class_behavior :
    ∀ (st : SendHandlerState) (sig : String) (classes : List ClassEntry)
      (q : List DebuggeePacket),
      st.queue = .virtualMachineClassesBySignature classes :: q →
      ((find_class st sig).2.payloads = st.payloads ++ [.virtualMachineClassesBySignature sig])
      ∧ (classes = [] → (find_class st sig).1 = .error (.panicked "No class found"))
      ∧ (∀ c cs, classes = c :: cs → (find_class st sig).1 = .ok c.type_id) := by
  intro st sig classes q hq
  cases classes with
  | nil =>
    rw [find_class_queue_nil hq]
    exact ⟨rfl, fun _ => rfl, fun c cs hcc => by simp at hcc⟩
  | cons c cs =>
    rw [find_class_queue_cons hq]
    refine ⟨rfl, fun hcc => by simp at hcc, ?_⟩
    intro c' cs' hcc
    simp only [List.cons.injEq] at hcc
    rw [← hcc.1]

/-- C7 witness: the amended claim at a one-element and an empty result set. -/
theorem c7_find_class_behavior_witness :
    ((find_class ⟨[], 0, [.virtualMachineClassesBySignature [⟨77⟩]]⟩ "LFoo;").1 = .ok 77)
    ∧ ((find_class ⟨[], 0, [.virtualMachineClassesBySignature [⟨77⟩]]⟩ "LFoo;").2.payloads
        = [] ++ [.virtualMachineClassesBySignature "LFoo;"])
    ∧ ((find_class ⟨[], 0, [.virtualMachineClassesBySignature []]⟩ "LBar;").1
        = .error (.panicked "No class found")) :=
  ⟨(c7_find_class_behavior _ "LFoo;" [⟨77⟩] [] rfl).2.2 ⟨77⟩ [] rfl,
   (c7_find_class_behavior _ "LFoo;" [⟨77⟩] [] rfl).1,
   (c7_find_class_behavior _ "LBar;" [] [] rfl).2.1 rfl⟩

/-- C8: `find_method` and `find_field` return the handle of a declared
member whose name and full descriptor signature both equal the requested
ones exactly (`==` on the strings), and fail with the not-found error
exactly when no declared member satisfies both equalities jointly. -/
theorem c8_find_member_exact_match :
    ∀ (st : SendHandlerState) (cid : Nat) (n s : String),
      (∀ (ms : List MethodEntry) (q : List DebuggeePacket),
        st.queue = .referenceTypeMethods ms :: q →
        (∀ h, (find_method st cid n s).1 = .ok h →
          ∃ m ∈ ms, m.name = n ∧ m.signature = s ∧ m.method_id = h)
        ∧ ((∀ m ∈ ms, ¬(m.name = n ∧ m.signature = s)) ↔
          (find_method st cid n s).1 = .error (.err ("Method " ++ n ++ " not found"))))
    ∧ (∀ (fs : List FieldEntry) (q : List DebuggeePacket),
        st.queue = .referenceTypeFields fs :: q →
        (∀ h, (find_field st cid n s).1 = .ok h →
          ∃ fe ∈ fs, fe.name = n ∧ fe.signature = s ∧ fe.field_id = h)
        ∧ ((∀ fe ∈ fs, ¬(fe.name = n ∧ fe.signature = s)) ↔
          (find_field st cid n s).1 = .error (.err ("Field " ++ n ++ " not found")))) := by
  intro st cid n s
  constructor
  · intro ms q hq
    rw [find_method_queue hq]
    dsimp only
    cases hfind : find_method_in ms n s with
    | some h0 =>
      constructor
      · intro h hh
        simp only [Except.ok.injEq] at hh
        exact hh ▸ find_method_in_some ms n s h0 hfind
      · constructor
        · intro hall
          obtain ⟨m, hmem, hn, hs, _⟩ := find_method_in_some ms n s h0 hfind
          exact absurd ⟨hn, hs⟩ (hall m hmem)
        · intro hh
          exact absurd hh (by simp)
    | none =>
      constructor
      · intro h hh
        exact absurd hh (by simp)
      · constructor
        · intro _
          rfl
        · intro _
          exact (find_method_in_none_iff ms n s).mp hfind
  · intro fs q hq
    rw [find_field_queue hq]
    dsimp only
    cases hfind : find_field_in fs n s with
    | some h0 =>
      constructor
      · intro h hh
        simp only [Except.ok.injEq] at hh
        exact hh ▸ find_field_in_some fs n s h0 hfind
      · constructor
        · intro hall
          obtain ⟨fe, hmem, hn, hs, _⟩ := find_field_in_some fs n s h0 hfind
          exact absurd ⟨hn, hs⟩ (hall fe hmem)
        · intro hh
          exact absurd hh (by simp)
    | none =>
      constructor
      · intro h hh
        exact absurd hh (by simp)
      · constructor
        · intro _
          rfl
        · intro _
          exact (find_field_in_none_iff fs n s).mp hfind

/-- C8 witness: a successful exact joint match, and a not-found failure when
only the signature differs, at a concrete declared-method list. -/
theorem c8_find_member_exact_match_witness :
    (∃ m ∈ [({method_id := 7, name := "add", signature := "(J)J"} : MethodEntry)],
      m.name = "add" ∧ m.signature = "(J)J" ∧ m.method_id = 7)
    ∧ (find_method ⟨[], 0, [.referenceTypeMethods
          [{method_id := 7, name := "add", signature := "(J)J"}]]⟩ 5 "add" "(I)I").1
        = .error (.err ("Method " ++ "add" ++ " not found")) :=
  ⟨((c8_find_member_exact_match ⟨[], 0, [.referenceTypeMethods
        [{method_id := 7, name := "add", signature := "(J)J"}]]⟩ 5 "add" "(J)J").1
      [{method_id := 7, name := "add", signature := "(J)J"}] [] rfl).1 7 rfl,
   ((c8_find_member_exact_match ⟨[], 0, [.referenceTypeMethods
        [{method_id := 7, name := "add", signature := "(J)J"}]]⟩ 5 "add" "(I)I").1
      [{method_id := 7, name := "add", signature := "(J)J"}] [] rfl).2.mp (by decide)⟩

/-- C9 counterexample: removing the whitespace that separates the two
integer tokens of `"1 2"` merges them into the single token `"12"` and
changes the result of `parse_input` from the trailing-input error to
success, so the claim is false as stated for whitespace removal. -/
theorem c9_counterexample :
    parse_input "1 2".toList = .err (.trailingInput [' ', '2'])
    ∧ parse_input "12".toList = .ok [.Number 12] :=
  ⟨by decide, by decide⟩

/-- C9 (amended): parsing is invariant under whitespace changes between
tokens that preserve the token sequence (any insertion, and any removal that
does not merge two adjacent integer literals): two inputs with the same
token sequence parse to the same instruction sequence on success and to the
same error class on failure (error payloads record raw input slices and may
differ). -/
theorem c9_whitespace_invariance {s t : List Char} (h : tokenize s = tokenize t) :
    liftTop (parse_input s) = liftTop (parse_input t)
    ∧ (∀ es, parse_input s = .ok es ↔ parse_input t = .ok es) := by
  have hmain : liftTop (parse_input s) = liftTop (parse_input t) := by
    rw [parse_input_factor s, parse_input_factor t, h]
    exact tok_parse_fuel_indep (h ▸ parseFuel_sufficient s) (parseFuel_sufficient t)
  refine ⟨hmain, ?_⟩
  intro es
  have hok : ∀ (x : PResult ParseErr (List Expression)),
      liftTop x = .ok es ↔ x = .ok es := by
    intro x
    cases x with
    | ok es1 => simp [liftTop]
    | err e => simp [liftTop]
    | ofl => simp [liftTop]
  rw [← hok (parse_input s), ← hok (parse_input t), hmain]

/-- C9 witness: `"1+2"` and `" 1 + 2 "` have the same token sequence and
parse identically. -/
theorem c9_whitespace_invariance_witness :
    liftTop (parse_input "1+2".toList) = liftTop (parse_input " 1 + 2 ".toList) :=
  (c9_whitespace_invariance (by decide)).1

/-- C10: if `parse_input` fails on the expression text, `calc_expression`
returns that parse error and the session state is unchanged: no packet is
appended to the envelope history, the command id is not incremented, and the
inbound queue is not consumed. -/
theorem c10_parse_error_atomic :
    ∀ (st : SendHandlerState) (env : CalcEnv) (expr : List Char) (e : ParseErr),
      parse_input expr = .err e →
      calc_expression st env expr = (.error (.parse e), st) := by
  intro st env expr e hp
  rw [calc_expression, hp]

/-- C10 witness: a parse error on `"1 +"` leaves a concrete session state
untouched. -/
theorem c10_parse_error_atomic_witness :
    calc_expression ⟨[], 0, [.virtualMachineIDSizes]⟩
      ⟨1, 2, 3, 4, 5, 6, 7, 8, 9, 10, 11⟩ "1 +".toList
      = (.error (.parse (.expectedNumber [])), ⟨[], 0, [.virtualMachineIDSizes]⟩) :=
  c10_parse_error_atomic _ _ _ _ (by decide)

end Jcalc


